import Mathlib

/-!
# Verification of the netwrangler network-interface compiler

A shallow embedding, in Lean 4, of the core of the netwrangler repository:
the physical-interface matcher (`util/phy.go`), the glob-to-regexp
translator (`Glob2RE`), the field validators (`util/validate.go`), the
interface-graph validator (`Interface.validate`, `Layout.Validate`,
`Layout.cyclic`), and the netplan compiler (`Netplan.Compile`).

Modelling conventions:
* Go `map[string]T` becomes an association list `List (String × T)`;
  assignment is `aset` (replace in place, or append); a read of a missing
  key yields the Go zero value of the type, as in Go.
* Go byte slices (hardware addresses) become `List Nat`.
* `sort.Strings` becomes `List.insertionSort (· ≤ ·)` over `String`
  (the relation is total, so the result is the same sorted list).
* Go errors accumulated with `util.Err.Errorf` become a `List Emsg` of
  structured messages, one constructor per `Errorf` call site, carrying
  the interpolated arguments.  The `Err.Prefix` decoration is dropped:
  only presence, order and content of messages matter here.
* `log.Panicf` sites are modelled as a distinguished `Emsg.panicked`
  message; an error-free run therefore never reaches them.
* The layer-3 `Network` block is treated as an abstract type `Net`
  together with its validator `netValidate : Net → List String`
  (`Network.validate` in the source); all theorems hold for every
  instantiation.
* Regular expressions are abstracted by a compile function
  `rcompile : String → Except String α` (Go `regexp.Compile`) and a
  matching function `matchStr : α → String → Bool` (Go
  `Regexp.MatchString`); the glob translation itself (`Glob2RE`) is
  embedded concretely.
-/

/-! ## Association-list maps (Go `map[string]α`) -/

/-- First-match lookup, i.e. Go map read returning `(value, ok)`. -/
def alookup {α : Type _} : List (String × α) → String → Option α
  | [], _ => none
  | (k, v) :: rest, key => if k = key then some v else alookup rest key

/-- Go map assignment `m[k] = v`: replace in place, else append. -/
def aset {α : Type _} : List (String × α) → String → α → List (String × α)
  | [], key, v => [(key, v)]
  | (k, w) :: rest, key, v =>
    if k = key then (k, v) :: rest else (k, w) :: aset rest key v

/-- The keys of a map, in storage order. -/
def akeys {α : Type _} (m : List (String × α)) : List String := m.map (·.1)

/-! ## Data model (`util/models.go`, `util/phy.go`, `run_test.go` part 2) -/

/-- A parameter value stored in an interface's `Parameters` map
(`map[string]interface{}`; only booleans and ints are ever stored). -/
inductive PVal where
  | pb (b : Bool)
  | pi (n : Int)
  deriving DecidableEq, Repr

/-- `util.Interface`, the canonical graph node.  Field defaults are the Go
zero values, so that a read of a missing map key can yield `{}`. -/
structure Iface (Net : Type) where
  type_ : String := ""
  matchID : String := ""
  name : String := ""
  currentHwAddr : List Nat := []
  macAddress : List Nat := []
  optional : Bool := false
  interfaces : List String := []
  params : List (String × PVal) := []
  network : Option Net := none
  deriving Repr, DecidableEq

instance {Net : Type} : Inhabited (Iface Net) := ⟨{}⟩

/-- `util.Match`, the physical-interface match specification. -/
structure MatchSpec where
  name : String := ""
  driver : String := ""
  macAddress : List Nat := []
  deriving Repr, DecidableEq

/-- `util.Phy`: a discovered physical NIC (`gnet.Interface` + `BootIf`). -/
structure Phy where
  name : String := ""
  stableName : String := ""
  ordinalName : String := ""
  driver : String := ""
  hardwareAddr : List Nat := []
  bootIf : Bool := false
  deriving Repr, DecidableEq

/-- `util.Layout`: the compiled interface graph. -/
structure Layout (Net : Type) where
  interfaces : List (String × Iface Net)
  child2Parent : List (String × List String) := []
  roots : List String := []
  deriving Repr, DecidableEq

/-! ## Accumulated error messages (`util.Err`)

One constructor per `Errorf` call site in the embedded code, carrying the
interpolated arguments.  `netErr` wraps messages produced by the layer-3
validator, `panicked` marks `log.Panicf` sites. -/

inductive Emsg where
  | physHasSubs (ptype pname : String) (subs : List String)
  | netErr (m : String)
  | undefSub (ptype pname sub : String)
  | notPhysical (ptype pname ctype cname : String)
  | builtOn (ptype pname ctype cname : String)
  | alreadyOwned (ctype cname otype oname ptype pname : String)
  | cycleDetected (intf : String) (working : List String)
  | panicked (m : String)
  | castBool (k : String)
  | castInt (k : String)
  | outOfRange (k : String) (n lo hi : Int)
  | wifiUnsupported
  | duplicateDef (name otherType : String)
  | invalidMatch (m : String)
  | zeroMatches (key : String)
  | parseMsg (m : String)
  deriving DecidableEq, Repr

/-- Lexicographic comparison of character lists (Go compares the UTF-8
bytes of the two strings; on the code points this is the same order). -/
def charsLe : List Char → List Char → Bool
  | [], _ => true
  | _ :: _, [] => false
  | a :: as, b :: bs =>
    if a.toNat < b.toNat then true
    else if b.toNat < a.toNat then false
    else charsLe as bs

/-- The string order used by `sort.Strings`. -/
def SLe (a b : String) : Prop := charsLe a.data b.data = true

instance : DecidableRel SLe := fun a b => by unfold SLe; infer_instance

/-- The cons case of lexicographic comparison, unfolded. -/
def charsLeConsIff (a b : Char) (as bs : List Char) :
    charsLe (a :: as) (b :: bs) = true ↔
      a.toNat < b.toNat ∨ (a.toNat = b.toNat ∧ charsLe as bs = true) := by
  by_cases hab : a.toNat < b.toNat
  · simp [charsLe, hab]
  · by_cases hba : b.toNat < a.toNat
    · simp [charsLe, hab, hba]; omega
    · simp [charsLe, hab, hba]; omega

instance : IsTotal String SLe :=
  ⟨fun a b => by
    show charsLe a.data b.data = true ∨ charsLe b.data a.data = true
    generalize a.data = as; generalize b.data = bs
    induction as generalizing bs with
    | nil => left; rfl
    | cons a as ih =>
      cases bs with
      | nil => right; rfl
      | cons b bs =>
        rcases Nat.lt_trichotomy a.toNat b.toNat with h | h | h
        · left; simp [charsLe, h]
        · rcases ih bs with h2 | h2
          · left; rw [charsLeConsIff]; right; exact ⟨h, h2⟩
          · right; rw [charsLeConsIff]; right; exact ⟨h.symm, h2⟩
        · right; simp [charsLe, h]⟩

instance : IsTrans String SLe :=
  ⟨fun a b c => by
    show charsLe a.data b.data = true → charsLe b.data c.data = true →
      charsLe a.data c.data = true
    generalize a.data = as; generalize b.data = bs; generalize c.data = cs
    induction as generalizing bs cs with
    | nil => intro _ _; rfl
    | cons a as ih =>
      intro h1 h2
      cases bs with
      | nil => simp [charsLe] at h1
      | cons b bs =>
        cases cs with
        | nil => simp [charsLe] at h2
        | cons c cs =>
          rw [charsLeConsIff] at h1 h2 ⊢
          rcases h1 with h1 | ⟨he1, hr1⟩ <;> rcases h2 with h2 | ⟨he2, hr2⟩
          · left; omega
          · left; omega
          · left; omega
          · right; exact ⟨by omega, ih bs cs hr1 hr2⟩⟩

instance : IsAntisymm String SLe :=
  ⟨fun a b h1 h2 => by
    have key : ∀ as bs, charsLe as bs = true → charsLe bs as = true → as = bs := by
      intro as
      induction as with
      | nil =>
        intro bs h1 h2
        cases bs with
        | nil => rfl
        | cons b bs => simp [charsLe] at h2
      | cons a as ih =>
        intro bs h1 h2
        cases bs with
        | nil => simp [charsLe] at h1
        | cons b bs =>
          rw [charsLeConsIff] at h1 h2
          rcases h1 with h1 | ⟨he1, hr1⟩ <;> rcases h2 with h2 | ⟨he2, hr2⟩
          · omega
          · omega
          · omega
          · have hc : a = b := Char.ext (UInt32.ext (by
              simpa [Char.toNat] using he1))
            exact hc ▸ congrArg (a :: ·) (ih bs hr1 hr2)
    cases a; cases b
    exact congrArg String.mk (key _ _ h1 h2)⟩

/-- Sorting of string lists: `sort.Strings`. -/
def ssort (l : List String) : List String := List.insertionSort SLe l

section LayoutValidation

variable {Net : Type} (netValidate : Net → List String)

/-- Go zero-value read: `l.Interfaces[k]` when `k` may be absent. -/
def ifaceZ (m : List (String × Iface Net)) (k : String) : Iface Net :=
  (alookup m k).getD {}

/-- The body of the member loop of `Interface.validate` (run_test.go
527-555): the ownership bookkeeping for one member `name` whose `child`
record has already passed the nesting checks.  Threads the evolving
`Child2Parent` map; returns the updated layout and the messages added.
Note the Go code iterates over the `otherNames` slice captured before the
loop while appending to the live map entry.  `oStep` is one iteration of
the loop over the already-recorded parents. -/
def oStep (i child : Iface Net) (acc : Layout Net × List Emsg)
    (otherName : String) : Layout Net × List Emsg :=
  let st := acc.1
  let es := acc.2
  let other := ifaceZ st.interfaces otherName
  if i.type_ = "bridge" ∨ i.type_ = "bond" then
    (st, es ++ [.alreadyOwned child.type_ child.name other.type_ other.name i.type_ i.name])
  else if i.type_ = "vlan" then
    if other.type_ ≠ "vlan" then
      (st, es ++ [.alreadyOwned child.type_ child.name other.type_ other.name i.type_ i.name])
    else
      ({ st with child2Parent :=
          (aset st.child2Parent child.name
            (ssort ((alookup st.child2Parent child.name).getD [] ++ [i.name]))) }, es)
  else
    (st, es ++ [.panicked "Cannot happen"])

def ownStep (i : Iface Net) (child : Iface Net) (name : String)
    (l : Layout Net) : Layout Net × List Emsg :=
  match alookup l.child2Parent name with
  | none =>
    ({ l with child2Parent := aset l.child2Parent name [i.name] }, [])
  | some otherNames =>
    otherNames.foldl (oStep i child) (l, [])

/-- One member iteration of `Interface.validate`: resolve the member,
apply the nesting rule for the parent kind, then the ownership rule.
(The Go `child.Network = nil` writes inside the nesting checks mutate a
local copy of the map value and never persist, so they are omitted.) -/
def memberStep (i : Iface Net) (l : Layout Net) (name : String) :
    Layout Net × List Emsg :=
  match alookup l.interfaces name with
  | none => (l, [.undefSub i.type_ i.name name])
  | some child =>
    if i.type_ = "bond" then
      if child.type_ ≠ "physical" then
        (l, [.notPhysical i.type_ i.name child.type_ child.name])
      else ownStep i child name l
    else if i.type_ = "bridge" then
      if child.type_ = "bridge" then
        (l, [.builtOn i.type_ i.name child.type_ child.name])
      else ownStep i child name l
    else if i.type_ = "vlan" then
      if child.type_ = "vlan" then
        (l, [.builtOn i.type_ i.name child.type_ child.name])
      else ownStep i child name l
    else
      (l, [.panicked "Cannot happen"])

/-- The member fold step: run `memberStep` and append its messages. -/
def mStep (i : Iface Net) (acc : Layout Net × List Emsg) (name : String) :
    Layout Net × List Emsg :=
  let r := memberStep i acc.1 name
  (r.1, acc.2 ++ r.2)

/-- `Interface.validate` (run_test.go 485-557) for the node stored at key
`k`.  Physical nodes must be member-free; other nodes validate their
layer-3 block, sort their member list (an in-place slice sort, which
persists into the stored map value and is modelled by writing the sorted
record back), and run the member loop. -/
def ifaceValidate (l : Layout Net) (k : String) : Layout Net × List Emsg :=
  let i := ifaceZ l.interfaces k
  if i.type_ = "physical" then
    (l, if i.interfaces.length > 0 then [.physHasSubs i.type_ i.name i.interfaces] else [])
  else
    let netE : List Emsg := match i.network with
      | none => []
      | some n => (netValidate n).map .netErr
    let sortedM := ssort i.interfaces
    let l := { l with interfaces := aset l.interfaces k { i with interfaces := sortedM } }
    sortedM.foldl (mStep i) (l, netE)

/-- `Layout.cyclic` (run_test.go 619-642).  The extra `fuel` argument
makes the recursion structural; `fuel = #(Child2Parent) + 2` bounds the
depth of the Go recursion (the working stack is duplicate-free and every
entry has a `Child2Parent` key), so the `0` case is never reached from
`layoutValidate`.  Returns the updated clean set and error list. -/
def cyclic (c2p : List (String × List String)) :
    Nat → String → List String → List String → List Emsg →
    List String × List Emsg
  | 0, _, _, clean, es => (clean, es)
  | fuel + 1, intf, working, clean, es =>
    if intf ∈ clean then (clean, es)
    else
      match alookup c2p intf with
      | none =>
        (working.foldl (fun cl n => if n ∈ cl then cl else cl ++ [n]) clean, es)
      | some next =>
        if intf ∈ working then (clean, es ++ [.cycleDetected intf working])
        else
          next.foldl (fun (acc : List String × List Emsg) n =>
            cyclic c2p fuel n (working ++ [intf]) acc.1 acc.2)
            (clean, es)

/-- The per-node fold step of the first phase of `Layout.Validate`: run
`Interface.validate` and merge its messages. -/
def p1Step (acc : Layout Net × List Emsg) (k : String) : Layout Net × List Emsg :=
  let r := ifaceValidate netValidate acc.1 k
  (r.1, acc.2 ++ r.2)

/-- The network-strip step of `Layout.Validate` (run_test.go 663-672)
for one key: clear the layer-3 block of every member of a bond or
bridge, writing each member back under its `Name`. -/
def stripChild (st : Layout Net) (mk : String) : Layout Net :=
  let child := ifaceZ st.interfaces mk
  { st with interfaces := aset st.interfaces child.name { child with network := none } }

def stripStep (st : Layout Net) (k : String) : Layout Net :=
  let v := ifaceZ st.interfaces k
  if (v.type_ = "bridge" ∨ v.type_ = "bond") ∧ v.interfaces ≠ [] then
    v.interfaces.foldl stripChild st
  else st

/-- The root/cycle fold step of `Layout.Validate` (run_test.go 674-679)
for one key: append a parentless key to the roots, then run the cyclic
walk from it. -/
def rcStep (c2p : List (String × List String)) (fuel : Nat)
    (acc : List String × List String × List Emsg) (k : String) :
    List String × List String × List Emsg :=
  let roots := if alookup c2p k = none then acc.1 ++ [k] else acc.1
  let r := cyclic c2p fuel k [] acc.2.1 acc.2.2
  (roots, r.1, r.2)

/-- The tail of `Layout.Validate` after an error-free first phase: the
root computation and the cyclic walk over every key of the (stripped)
layout. -/
def postPhase (l₁ : Layout Net) : Layout Net × List Emsg :=
  let fuel := l₁.child2Parent.length + 2
  let fin := (akeys l₁.interfaces).foldl (rcStep l₁.child2Parent fuel)
    (l₁.roots, [], [])
  ({ l₁ with roots := ssort fin.1 }, fin.2.2)

/-- The first phase of `Layout.Validate`: reset `Child2Parent` and run
`Interface.validate` over every node in sorted key order, accumulating
messages. -/
def phase1 (l : Layout Net) : Layout Net × List Emsg :=
  (ssort (akeys l.interfaces)).foldl (p1Step netValidate)
    ({ l with child2Parent := ([] : List (String × List String)) }, [])

/-- `Layout.Validate` (run_test.go 648-682).  Resets `Child2Parent` (but
not `Roots`), validates every node in sorted key order, stops early if
any error was found, strips the layer-3 blocks of bond/bridge members,
then computes roots and runs cycle detection from every node.  The Go
`for k := range l.Interfaces` iterates in unspecified map order; the
embedding uses storage order (roots are sorted afterwards). -/
def layoutValidate (l : Layout Net) : Layout Net × List Emsg :=
  let members := ssort (akeys l.interfaces)
  let p1 := phase1 netValidate l
  if p1.2 ≠ [] then p1
  else
    let l₁ := members.foldl stripStep p1.1
    let fuel := l₁.child2Parent.length + 2
    let fin := (akeys l₁.interfaces).foldl (rcStep l₁.child2Parent fuel)
      (l₁.roots, [], [])
    ({ l₁ with roots := ssort fin.1 }, fin.2.2)

end LayoutValidation

/-! ## Glob-to-regexp translation (`Glob2RE`, unnamed part_010 173-181) -/

/-- The characters `regexp.QuoteMeta` escapes. -/
def reSpecial (c : Char) : Bool :=
  c = '\\' || c = '.' || c = '+' || c = '*' || c = '?' || c = '(' || c = ')' ||
  c = '|' || c = '[' || c = ']' || c = '\x7b' || c = '\x7d' || c = '^' || c = '$'

/-- `regexp.QuoteMeta`: escape every regexp metacharacter. -/
def quoteMetaL : List Char → List Char
  | [] => []
  | c :: cs => (if reSpecial c then ['\\', c] else [c]) ++ quoteMetaL cs

/-- `strings.Replace(s, old, new, -1)` specialised to the two-character
patterns the source uses: replace every non-overlapping occurrence of
`[a, b]`, scanning left to right. -/
def replace2 (a b : Char) (rep : List Char) : List Char → List Char
  | [] => []
  | [c] => [c]
  | c :: d :: rest =>
    if c = a ∧ d = b then rep ++ replace2 a b rep rest
    else c :: replace2 a b rep (d :: rest)

/-- The regexp source string `Glob2RE` hands to `regexp.Compile` for a
pattern that does not begin with `^`: quote, then `\*` → `.*`, then
`\?` → `.`, anchored on both sides. -/
def glob2reStr (s : String) : String :=
  ⟨'^' :: (replace2 '\\' '?' ['.'] (replace2 '\\' '*' ['.', '*'] (quoteMetaL s.data))) ++ ['$']⟩

/-- `Glob2RE` over an abstract `regexp.Compile`.  A pattern beginning
with `^` is compiled as written.  Go indexes `s[0]` unconditionally, so
the empty pattern panics; the panic is modelled as an error value (no
caller passes the empty string). -/
def Glob2RE {α : Type _} (rcompile : String → Except String α) (s : String) :
    Except String α :=
  if s = "" then .error "panic: index out of range"
  else if s.data.head? = some '^' then rcompile s
  else rcompile (glob2reStr s)

/-! ## The physical matcher (`util.MatchPhys`, util/phy.go 24-63) -/

/-- The freshly stamped physical node `MatchPhys` appends for a matched
candidate: the template with name, type and current MAC filled in. -/
def stampPhy {Net : Type} (tmpl : Iface Net) (phy : Phy) : Iface Net :=
  { tmpl with name := phy.name, type_ := "physical", currentHwAddr := phy.hardwareAddr }

/-- The candidate loop of `util.MatchPhys` (phy.go 40-61), with the
compiled name and driver patterns (`none` = no filter) in hand.  The
result list is accumulated left to right exactly as the Go loop does. -/
def matchPhysLoop {Net α : Type} (matchStr : α → String → Bool)
    (m : MatchSpec) (matchName matchDriver : Option α) (tmpl : Iface Net)
    (phys : List Phy) : List (Iface Net) :=
  phys.foldl (fun res phy =>
    if (match matchDriver with
        | some rd => ! matchStr rd phy.driver
        | none => false : Bool) then res
    else if m.macAddress.length > 0 ∧ m.macAddress ≠ phy.hardwareAddr then res
    else if m.name = "bootif" ∧ ¬ phy.bootIf then res
    else if m.name ≠ "bootif" ∧
        ((match matchName with
          | some rn => ! (matchStr rn phy.name || matchStr rn phy.stableName ||
                          matchStr rn phy.ordinalName)
          | none => false : Bool) = true) then res
    else res ++ [stampPhy tmpl phy]) []

/-- `util.MatchPhys`.  `rcompile`/`matchStr` abstract `regexp.Compile`
and `Regexp.MatchString`; everything else is concrete.  A pattern
compilation failure is returned as an error. -/
def MatchPhys {Net α : Type} (rcompile : String → Except String α)
    (matchStr : α → String → Bool) (m : MatchSpec) (tmpl : Iface Net)
    (phys : List Phy) : Except String (List (Iface Net)) :=
  match (if m.name = "" then Except.ok none else (Glob2RE rcompile m.name).map some) with
  | .error e => .error e
  | .ok matchName =>
    match (if m.driver = "" then Except.ok none else (Glob2RE rcompile m.driver).map some) with
    | .error e => .error e
    | .ok matchDriver =>
      .ok (matchPhysLoop matchStr m matchName matchDriver tmpl phys)

/-! ## Field validators (`util/validate.go`) -/

/-- The dynamic values a Go `interface{}` holds after YAML decoding, as
far as the embedded checkers distinguish them. -/
inductive GoVal where
  | vbool (b : Bool)
  | vstr (s : String)
  | vint (n : Int)
  | vuint (n : Nat)
  | vint64 (n : Int)
  | vuint64 (n : Nat)
  | vfloat (q : Rat)
  | vother (t : String)
  deriving DecidableEq, Repr

/-- `util.ValidateBool` (validate.go 28-42): native booleans pass
through; the eight listed strings coerce; everything else is an error.
Returns (messages added, result, valid). -/
def goValidateBool (k : String) (v : GoVal) : List Emsg × Bool × Bool :=
  match v with
  | .vbool b => ([], b, true)
  | .vstr s =>
    if s = "0" ∨ s = "f" ∨ s = "false" ∨ s = "off" then ([], false, true)
    else if s = "1" ∨ s = "t" ∨ s = "true" ∨ s = "on" then ([], true, true)
    else ([.castBool k], false, false)
  | _ => ([.castBool k], false, false)

/-- Go's `underscoreOK` check from `strconv` (base-0 parsing): every
underscore must sit between two digits, or between the base prefix and a
digit. -/
def underscoreOK (cs : List Char) : Bool :=
  let cs := match cs with
    | c :: rest => if c = '-' ∨ c = '+' then rest else cs
    | [] => cs
  let (start, hex, saw0) : List Char × Bool × Bool := match cs with
    | '0' :: c :: rest =>
      if c = 'b' ∨ c = 'B' ∨ c = 'o' ∨ c = 'O' then (rest, false, true)
      else if c = 'x' ∨ c = 'X' then (rest, true, true)
      else (cs, false, false)
    | _ => (cs, false, false)
  let isDig : Char → Bool := fun c =>
    ('0' ≤ c ∧ c ≤ '9') ∨ (hex ∧ (('a' ≤ c ∧ c ≤ 'f') ∨ ('A' ≤ c ∧ c ≤ 'F')))
  let fin := start.foldl (fun (st : Option Char) c =>
    match st with
    | none => none
    | some saw =>
      if isDig c then some '0'
      else if c = '_' then (if saw ≠ '0' then none else some '_')
      else if saw = '_' then none
      else some '!') (some (if saw0 then '0' else '^'))
  match fin with
  | none => false
  | some saw => saw ≠ '_'

/-- Digit value of a character in the given base, if valid. -/
def digitVal (base : Nat) (c : Char) : Option Nat :=
  let v : Option Nat :=
    if '0' ≤ c ∧ c ≤ '9' then some (c.toNat - '0'.toNat)
    else if 'a' ≤ c ∧ c ≤ 'z' then some (c.toNat - 'a'.toNat + 10)
    else if 'A' ≤ c ∧ c ≤ 'Z' then some (c.toNat - 'A'.toNat + 10)
    else none
  match v with
  | some d => if d < base then some d else none
  | none => none

/-- Parse a non-empty digit run in the given base. -/
def parseDigits (base : Nat) (cs : List Char) : Option Nat :=
  match cs with
  | [] => none
  | _ =>
    cs.foldl (fun acc c =>
      match acc, digitVal base c with
      | some n, some d => some (n * base + d)
      | _, _ => none) (some 0)

/-- `strconv.ParseInt(s, 0, 64)`: optional sign, base detection by
prefix (`0x`/`0o`/`0b`/leading `0` = octal), digit-separator
underscores, and the signed 64-bit range check. -/
def goParseInt (s : String) : Option Int :=
  if ¬ underscoreOK s.data then none
  else
    let cs := s.data.filter (· ≠ '_')
    let (sign, rest) : Int × List Char := match cs with
      | '+' :: r => (1, r)
      | '-' :: r => (-1, r)
      | r => (1, r)
    let mag : Option Nat := match rest with
      | '0' :: 'x' :: ds => parseDigits 16 ds
      | '0' :: 'X' :: ds => parseDigits 16 ds
      | '0' :: 'b' :: ds => parseDigits 2 ds
      | '0' :: 'B' :: ds => parseDigits 2 ds
      | '0' :: 'o' :: ds => parseDigits 8 ds
      | '0' :: 'O' :: ds => parseDigits 8 ds
      | ['0'] => some 0
      | '0' :: ds => parseDigits 8 ds
      | ds => parseDigits 10 ds
    match mag with
    | none => none
    | some n =>
      let val : Int := sign * (n : Int)
      if val < -(2 ^ 63) ∨ (2 ^ 63 - 1 : Int) < val then none else some val

/-- Truncation toward zero: the value Go's `int(float64-value)`
conversion produces whenever that value is representable in a signed
64-bit integer (for other floats the Go conversion is
implementation-defined). -/
def ratTrunc (q : Rat) : Int := q.num.tdiv (q.den : Int)

/-- Go's conversion `int(vv)` of an unsigned 64-bit value on a 64-bit
platform: reduce mod `2^64` and reinterpret the bits as a
two's-complement signed integer, so values `≥ 2^63` come out
negative. -/
def wrap64 (n : Nat) : Int :=
  if n % 2 ^ 64 < 2 ^ 63 then ((n % 2 ^ 64 : Nat) : Int)
  else ((n % 2 ^ 64 : Nat) : Int) - 2 ^ 64

/-- `util.ValidateInt` (validate.go 46-73): every Go numeric type is
cast to `int` (64-bit): `int`/`int64` and parsed strings pass through,
`uint`/`uint64` wrap mod `2^64` into the signed range, and the
`float64` conversion — implementation-defined by the Go spec when the
truncated value does not fit in 64 bits — is abstracted as the
`floatCast` parameter; strings go through `strconv.ParseInt(s, 0, 64)`;
anything else fails; finally the range check.  Returns (messages,
result, valid). -/
def goValidateInt (floatCast : Rat → Int) (k : String) (v : GoVal)
    (lo hi : Int) : List Emsg × Int × Bool :=
  let range : Int → List Emsg × Int × Bool := fun n =>
    if lo ≤ n ∧ n ≤ hi then ([], n, true) else ([.outOfRange k n lo hi], n, false)
  match v with
  | .vint n => range n
  | .vint64 n => range n
  | .vuint n => range (wrap64 n)
  | .vuint64 n => range (wrap64 n)
  | .vfloat q => range (floatCast q)
  | .vstr s =>
    match goParseInt s with
    | none => ([.castInt k], 0, false)
    | some n => range n
  | _ => ([.castInt k], 0, false)

/-! ## The netplan compiler (`Netplan.Compile`, unnamed part_002 467-559)

The per-kind declaration parsers (`ethernet()`, `bond()`, `bridge()`,
`vlan()`) are YAML-shape checkers built on the field-validator framework;
they are abstracted as functions from an opaque declaration value to
(messages, optional parsed record), which is exactly how `Compile`
consumes them. -/

/-- The `phy` record produced by the `ethernet()` parser (part_002
158-163). -/
structure PhyRec (Net : Type) where
  intf : Iface Net
  mtch : MatchSpec := {}
  wol : Bool := false
  optional : Bool := false

/-- The compiler's mutable state: the growing interface map, the
declared-key → resolved-names map, and the error collector. -/
structure CState (Net : Type) where
  interfaces : List (String × Iface Net) := []
  matchChildren : List (String × List String) := []
  errs : List Emsg := []

section Compiler

variable {Net Decl α : Type} (netValidate : Net → List String)
  (rcompile : String → Except String α) (matchStr : α → String → Bool)
  (phys : List Phy)

/-- The trailing loop of `addOther`: for every member name of the added
node, auto-register any physical NIC it matches.  A match error aborts
the rest of the loop (the Go closure `return`s). -/
def addOtherSubs : List String → CState Net → CState Net
  | [], st => st
  | k :: rest, st =>
    match MatchPhys rcompile matchStr { name := k } ({} : Iface Net) phys with
    | .error msg => { st with errs := st.errs ++ [.invalidMatch msg] }
    | .ok subs =>
      let st := subs.foldl (fun (st : CState Net) newIntf =>
        let newIntf := { newIntf with matchID := newIntf.name }
        if (alookup st.interfaces newIntf.name).isNone then
          { st with interfaces := aset st.interfaces newIntf.name newIntf }
        else st) st
      addOtherSubs rest st

/-- `addOther` (part_002 477-498): stamp name and match id, reject a
duplicate node name, then auto-register referenced physical NICs. -/
def addOther (st : CState Net) (name matchID : String) (intf : Iface Net) :
    CState Net :=
  let intf := { intf with name := name, matchID := matchID }
  let st :=
    match alookup st.interfaces name with
    | some other => { st with errs := st.errs ++ [.duplicateDef name other.type_] }
    | none => { st with interfaces := aset st.interfaces name intf }
  addOtherSubs rcompile matchStr phys intf.interfaces st

/-- `phy.matchPhys` (part_002 165-172): an entirely empty match spec is
replaced by a name filter equal to the declaration's match id. -/
def phyRecMatch (p : PhyRec Net) : Except String (List (Iface Net)) :=
  let m := if p.mtch.name = "" ∧ p.mtch.driver = "" ∧ p.mtch.macAddress = []
           then { p.mtch with name := p.intf.matchID } else p.mtch
  MatchPhys rcompile matchStr m p.intf phys

/-- `getNames` + map indexing: iterate a Go `map[string]Decl` in sorted
key order. -/
def sortPairs (m : List (String × Decl)) : List (String × Decl) :=
  (ssort (akeys m)).filterMap fun k => (alookup m k).map ((k, ·))

/-- One iteration of the ethernet loop of `Compile` (part_002 512-534). -/
def ethStep (parseEth : String → Decl → List Emsg × Option (PhyRec Net))
    (st : CState Net) (kd : String × Decl) : CState Net :=
  let (k, d) := kd
  let (msgs, pr) := parseEth k d
  let st := { st with errs := st.errs ++ msgs }
  match pr with
  | none => st
  | some p =>
    let p := { p with intf := { p.intf with matchID := k } }
    match phyRecMatch rcompile matchStr phys p with
    | .error msg => { st with errs := st.errs ++ [.invalidMatch msg] }
    | .ok realInts =>
      if realInts.isEmpty then { st with errs := st.errs ++ [.zeroMatches k] }
      else
        let st := realInts.foldl
          (fun (st : CState Net) r => addOther rcompile matchStr phys st r.name k r) st
        { st with matchChildren := aset st.matchChildren k (realInts.map (·.name)) }

/-- One iteration of the bond/bridge/vlan loops of `Compile` (part_002
535-552). -/
def bbStep (parse : String → Decl → List Emsg × Option (Iface Net))
    (st : CState Net) (kd : String × Decl) : CState Net :=
  let (k, d) := kd
  let (msgs, r) := parse k d
  let st := { st with errs := st.errs ++ msgs }
  match r with
  | none => st
  | some intf => addOther rcompile matchStr phys st k k intf

/-- `realSubs` (part_002 500-511): substitute declared ethernet keys by
their match children, flatten, and sort. -/
def realSubs (matchChildren : List (String × List String)) (s : List String) :
    List String :=
  ssort (s.foldl (fun res v =>
    match alookup matchChildren v with
    | some ss => res ++ ss
    | none => res ++ [v]) [])

/-- `Netplan.Compile` (part_002 467-559): version guard, wifi guard,
the four declaration loops in sorted key order, member substitution, and
a final `Layout.Validate`.  Returns the layout and the accumulated
messages (empty ⇔ Go returns `nil`). -/
def compile (parseEth : String → Decl → List Emsg × Option (PhyRec Net))
    (parseBond parseBridge parseVlan : String → Decl → List Emsg × Option (Iface Net))
    (version : Int) (wifis : Bool)
    (eths bonds bridges vlans : List (String × Decl)) :
    Layout Net × List Emsg :=
  let st : CState Net := {}
  -- the version field is a Go `int`, so the float-conversion parameter
  -- of the checker is never consulted here
  let st : CState Net :=
    { st with errs := (goValidateInt ratTrunc "version" (.vint version) 2 2).1 }
  let st := if wifis then { st with errs := st.errs ++ [.wifiUnsupported] } else st
  let st := (sortPairs eths).foldl (ethStep rcompile matchStr phys parseEth) st
  let st := (sortPairs bonds).foldl (bbStep rcompile matchStr phys parseBond) st
  let st := (sortPairs bridges).foldl (bbStep rcompile matchStr phys parseBridge) st
  let st := (sortPairs vlans).foldl (bbStep rcompile matchStr phys parseVlan) st
  let ifs := st.interfaces.map fun kv =>
    (kv.1, { kv.2 with interfaces := realSubs st.matchChildren kv.2.interfaces })
  let (l, verrs) := layoutValidate netValidate { interfaces := ifs }
  (l, st.errs ++ verrs)

end Compiler

/-! ## Claim-side definitions and concrete instances -/

/-- `y` is recorded as a parent of `x` in a `childToParents` map. -/
def parentEdge (c2p : List (String × List String)) (x y : String) : Bool :=
  ((alookup c2p x).getD []).contains y

/-- The matcher result as the specification words it: all candidates for
which (driver pattern absent OR matches the driver) AND (MAC absent OR
byte-equal) AND (name pattern absent OR matches the primary, OS-stable
or ordinal name), each freshly stamped from the template.  `rn`/`rd` are
the compiled name and driver patterns (`none` = absent). -/
def matchPhysSpec {Net α : Type} (matchStr : α → String → Bool)
    (m : MatchSpec) (rn rd : Option α) (tmpl : Iface Net) (phys : List Phy) :
    List (Iface Net) :=
  (phys.filter (fun phy =>
    (rd.all fun r => matchStr r phy.driver) &&
    (m.macAddress.isEmpty || m.macAddress == phy.hardwareAddr) &&
    (rn.all fun r => matchStr r phy.name || matchStr r phy.stableName ||
      matchStr r phy.ordinalName))).map (stampPhy tmpl)

/-- The boot-interface special case as the specification words it: only
candidates flagged as the boot interface match, the name pattern is not
consulted, driver and MAC filters still apply. -/
def matchPhysBootSpec {Net α : Type} (matchStr : α → String → Bool)
    (m : MatchSpec) (rd : Option α) (tmpl : Iface Net) (phys : List Phy) :
    List (Iface Net) :=
  (phys.filter (fun phy =>
    (rd.all fun r => matchStr r phy.driver) &&
    (m.macAddress.isEmpty || m.macAddress == phy.hardwareAddr) &&
    phy.bootIf)).map (stampPhy tmpl)

/-- The per-character glob translation the specification describes:
`*` → `.*`, `?` → `.`, any other regexp metacharacter escaped, ordinary
characters kept. -/
def escGlob (c : Char) : List Char :=
  if c = '*' then ['.', '*']
  else if c = '?' then ['.']
  else if reSpecial c then ['\\', c]
  else [c]

/-- Every parent list recorded in `childToParents` is sorted. -/
def allC2PSorted {Net : Type} (l : Layout Net) : Prop :=
  ∀ p ∈ l.child2Parent, List.Sorted SLe p.2

/-- Every node's member list is sorted. -/
def allMemSorted {Net : Type} (l : Layout Net) : Prop :=
  ∀ p ∈ l.interfaces, List.Sorted SLe p.2.interfaces

/-- The type and final name of the node stored at a key (the fields of
an interface record that `Interface.validate` never changes). -/
def viewTN {Net : Type} (m : List (String × Iface Net)) (k : String) :
    Option (String × String) :=
  (alookup m k).map fun v => (v.type_, v.name)

/-- The member list of the node stored at a key, up to sorting (the
member list is only ever replaced by its sorted version). -/
def memView {Net : Type} (m : List (String × Iface Net)) (k : String) :
    Option (List String) :=
  (alookup m k).map fun v => ssort v.interfaces

/-- A map agrees with the original on presence, types, names, and
members-up-to-sorting of every key. -/
def relMaps {Net : Type} (orig cur : List (String × Iface Net)) : Prop :=
  (∀ k, viewTN cur k = viewTN orig k) ∧ (∀ k, memView cur k = memView orig k)

/-- The graph is keyed by node name, as the specification's data model
(`interfaces : name → Interface`) requires. -/
@[reducible] def keyedByName {Net : Type} (m : List (String × Iface Net)) : Prop :=
  ∀ p ∈ m, (p.2).name = p.1

/-- No recorded parent list is empty. -/
def c2pLight (c2p : List (String × List String)) : Prop :=
  ∀ c ps, alookup c2p c = some ps → ps ≠ []

/-- Every child with more than one recorded parent has only parents
whose node (in the original graph) is of vlan kind. -/
def vlanParents {Net : Type} (orig : List (String × Iface Net))
    (c2p : List (String × List String)) : Prop :=
  ∀ c ps, alookup c2p c = some ps → 1 < ps.length →
    ∀ p ∈ ps, (ifaceZ orig p).type_ = "vlan"

/-- The invariant carried through the first validation phase: the
interface map stays related to the original one, all recorded parent
lists are sorted and nonempty, and multi-parent children have only vlan
parents. -/
def c3Inv {Net : Type} (orig : List (String × Iface Net)) (st : Layout Net) :
    Prop :=
  relMaps orig st.interfaces ∧ allC2PSorted st ∧ c2pLight st.child2Parent ∧
    vlanParents orig st.child2Parent

/-- The layer-3 block (if any) validates without messages. -/
def netOK {Net : Type} (netValidate : Net → List String) (o : Option Net) :
    Prop :=
  ∀ n, o = some n → netValidate n = []

/-- Every non-physical node's layer-3 block validates without messages. -/
def netOKmap {Net : Type} (netValidate : Net → List String)
    (m : List (String × Iface Net)) : Prop :=
  ∀ k v, alookup m k = some v → v.type_ ≠ "physical" →
    netOK netValidate v.network

/-- The layer-3 block of the node stored at a key. -/
def netView {Net : Type} (m : List (String × Iface Net)) (k : String) :
    Option (Option Net) :=
  (alookup m k).map fun v => v.network

/-- A map agrees with the original on every node's layer-3 block. -/
def netViewRel {Net : Type} (orig cur : List (String × Iface Net)) : Prop :=
  ∀ k, netView cur k = netView orig k

/-- Two phase-one states that produce the same ownership bookkeeping:
equal `Child2Parent` maps, and node views (type, name, members up to
sorting) that agree at every key. -/
def simState {Net : Type} (st₁ st₂ : Layout Net) : Prop :=
  st₁.child2Parent = st₂.child2Parent ∧
  (∀ k, viewTN st₁.interfaces k = viewTN st₂.interfaces k) ∧
  (∀ k, memView st₁.interfaces k = memView st₂.interfaces k)

/-- The layer-3 messages `Interface.validate` produces for the node
stored at a key. -/
def netEof {Net : Type} (netValidate : Net → List String)
    (m : List (String × Iface Net)) (k : String) : List Emsg :=
  match (ifaceZ m k).network with
  | none => []
  | some n => (netValidate n).map Emsg.netErr

/-- The facts about one node that an error-free first validation phase
establishes: a non-physical node has a clean layer-3 block and only
defined members. -/
def nodeFacts {Net : Type} (netValidate : Net → List String)
    (orig : List (String × Iface Net)) (k : String) : Prop :=
  (ifaceZ orig k).type_ ≠ "physical" →
    (netOK netValidate (ifaceZ orig k).network ∧
     ∀ m ∈ (ifaceZ orig k).interfaces, (alookup orig m).isSome)

/-- The keys without a recorded parent, in storage order: the names
`Layout.Validate` appends to the roots list. -/
def parentless {Net : Type} (l : Layout Net) : List String :=
  (akeys l.interfaces).filter fun k => (alookup l.child2Parent k).isNone

/-- The trivial layer-3 validator used for concrete instances. -/
def unitNet : Unit → List String := fun _ => []

/-- A physical node named `nm` (concrete test graphs). -/
def mkPhys (nm : String) : Iface Unit :=
  { type_ := "physical", matchID := nm, name := nm }

/-- A vlan node named `nm` with the given members (concrete test graphs). -/
def mkVlan (nm : String) (mem : List String) : Iface Unit :=
  { type_ := "vlan", matchID := nm, name := nm, interfaces := mem }

/-- A bridge node named `nm` with the given members (concrete test graphs). -/
def mkBridge (nm : String) (mem : List String) : Iface Unit :=
  { type_ := "bridge", matchID := nm, name := nm, interfaces := mem }

/-- A valid single-node graph: one physical interface `eth0`. -/
def c1Layout : Layout Unit := { interfaces := [("eth0", mkPhys "eth0")] }

/-- A graph whose `childToParents` relation is cyclic (`w → b → w`)
although every per-node rule is satisfied: vlans `a` and `b` stack on
bridge `w`, and `w` is built on `b`. -/
def c4Layout : Layout Unit :=
  { interfaces :=
      [("a", mkVlan "a" ["w"]), ("b", mkVlan "b" ["w"]), ("w", mkBridge "w" ["b"])] }

/-- Three vlans stacked on one physical interface `p`. -/
def c10Layout : Layout Unit :=
  { interfaces :=
      [("p", mkPhys "p"), ("v1", mkVlan "v1" ["p"]),
       ("v2", mkVlan "v2" ["p"]), ("v3", mkVlan "v3" ["p"])] }

/-- Two vlans `v1`, `v2` stacked on one physical interface `p`: a valid
graph in which `p` ends up with two parents. -/
def c3vLayout : Layout Unit :=
  { interfaces :=
      [("p", mkPhys "p"), ("v1", mkVlan "v1" ["p"]), ("v2", mkVlan "v2" ["p"])] }

/-- A graph state in which bridge `b0` has already claimed the physical
interface `m` and bridge `b1` is about to claim it as well. -/
def c3bLayout : Layout Unit :=
  { interfaces :=
      [("m", mkPhys "m"), ("b0", mkBridge "b0" ["m"]), ("b1", mkBridge "b1" ["m"])],
    child2Parent := [("m", ["b0"])] }

/-- A regexp compiler for concrete instances: every pattern compiles to
itself. -/
def okRC : String → Except String String := fun s => Except.ok s

/-- A pattern matcher for concrete instances: everything matches. -/
def allMS : String → String → Bool := fun _ _ => true

/-! ## Helper lemmas -/

theorem alookup_aset {α : Type _} (m : List (String × α)) (k k' : String) (v : α) :
    alookup (aset m k v) k' = if k = k' then some v else alookup m k' := by
  induction m with
  | nil => by_cases h : k = k' <;> simp [aset, alookup, h]
  | cons hd tl ih =>
    obtain ⟨k₀, v₀⟩ := hd
    by_cases h0 : k₀ = k
    · subst h0
      by_cases h1 : k₀ = k' <;> simp [aset, alookup, h1]
    · by_cases h1 : k₀ = k'
      · subst h1
        have h2 : ¬k = k₀ := fun h => h0 h.symm
        simp [aset, alookup, h0, h2]
      · simp [aset, alookup, h0, h1, ih]

theorem akeys_aset {α : Type _} (m : List (String × α)) (k : String) (v : α) :
    akeys (aset m k v) =
      if (alookup m k).isNone then akeys m ++ [k] else akeys m := by
  induction m with
  | nil => simp [akeys, aset, alookup]
  | cons hd tl ih =>
    obtain ⟨k', v'⟩ := hd
    by_cases h : k' = k
    · simp [akeys, aset, alookup, h]
    · simp only [aset, alookup, if_neg h, akeys, List.map_cons] at ih ⊢
      rcases hl : (alookup tl k).isNone with _ | _ <;> simp [hl] at ih ⊢ <;>
        simp [ih]

theorem aset_aset {α : Type _} (m : List (String × α)) (k : String) (v w : α) :
    aset (aset m k v) k w = aset m k w := by
  induction m with
  | nil => simp [aset]
  | cons hd tl ih =>
    obtain ⟨k₀, v₀⟩ := hd
    by_cases h : k₀ = k <;> simp [aset, h, ih]

theorem mem_aset {α : Type _} (m : List (String × α)) (k : String) (v : α) :
    ∀ p ∈ aset m k v, p ∈ m ∨ p = (k, v) := by
  induction m with
  | nil => intro p hp; simp [aset] at hp; right; exact hp
  | cons hd tl ih =>
    obtain ⟨k₀, v₀⟩ := hd
    intro p hp
    by_cases h : k₀ = k <;> simp [aset, h] at hp
    · rcases hp with hp | hp
      · right; exact hp
      · left; simp [hp]
    · rcases hp with hp | hp
      · left; simp [hp]
      · rcases ih p hp with h2 | h2
        · left; simp [h2]
        · right; exact h2

theorem alookup_isSome_aset {α : Type _} (m : List (String × α)) (k x : String)
    (v : α) (h : (alookup m x).isSome) : (alookup (aset m k v) x).isSome := by
  rw [alookup_aset]
  by_cases hk : k = x <;> simp [hk, h]

theorem ssort_sorted (l : List String) : List.Sorted SLe (ssort l) :=
  List.sorted_insertionSort SLe l

theorem ssort_perm (l : List String) : List.Perm (ssort l) l :=
  List.perm_insertionSort SLe l

theorem mem_ssort {a : String} {l : List String} : a ∈ ssort l ↔ a ∈ l :=
  List.mem_insertionSort SLe

theorem ssort_eq_of_sorted {l : List String} (h : List.Sorted SLe l) :
    ssort l = l := h.insertionSort_eq

theorem ssort_append_left (a b : List String) :
    ssort (ssort a ++ b) = ssort (a ++ b) := by
  have p1 : List.Perm (ssort (ssort a ++ b)) (a ++ b) :=
    (ssort_perm _).trans ((ssort_perm a).append_right b)
  exact List.eq_of_perm_of_sorted (p1.trans (ssort_perm (a ++ b)).symm)
    (ssort_sorted _) (ssort_sorted _)

theorem foldlInv {σ β : Type _} {P : σ → Prop} {f : σ → β → σ}
    (h : ∀ s b, P s → P (f s b)) :
    ∀ (xs : List β) (s : σ), P s → P (xs.foldl f s) := by
  intro xs
  induction xs with
  | nil => intro s hs; exact hs
  | cons x xs ih => intro s hs; exact ih (f s x) (h s x hs)

/-! ## C4: cycle detection misses cycles (code bug) -/

/-- **C4**: the claim states that whenever some node is reachable from
itself via `childToParents`, `Layout.Validate` reports a cycle error.
The graph `c4Layout` refutes this on the code: validation returns *no
error* (first conjunct) although `w → b → w` is a cycle of the computed
`childToParents` relation (second and third conjuncts).  The clean-set
optimisation of `Layout.cyclic` marks every node of the working path
clean as soon as one branch terminates (here the parentless vlan `a`),
so the cycle through the second parent `b` is never examined. -/
theorem claim4_cycle_missed :
    (layoutValidate unitNet c4Layout).2 = [] ∧
    parentEdge (layoutValidate unitNet c4Layout).1.child2Parent "w" "b" = true ∧
    parentEdge (layoutValidate unitNet c4Layout).1.child2Parent "b" "w" = true := by
  refine ⟨by decide, by decide, by decide⟩

/-! ## C10: repeated parent names (corrected) -/

/-- **C10** (counterexample): after `Layout.Validate` on three vlans
stacked on `p`, the parent list of `p` is `[v1, v2, v3, v3]` — the third
vlan's name is inserted twice (once per already-recorded parent), while
the run reports no error.  This refutes "every parent name appears at
most once". -/
theorem claim10_counterexample :
    alookup (layoutValidate unitNet c10Layout).1.child2Parent "p" =
      some ["v1", "v2", "v3", "v3"] ∧
    (layoutValidate unitNet c10Layout).2 = [] := by
  refine ⟨by decide, by decide⟩

/-! ## C1: re-validation duplicates roots (corrected) -/

/-- **C1** (counterexample): validating the already-valid single-node
graph a second time yields `roots = [eth0, eth0]`, not the same `roots`
as the first run (`Validate` resets `Child2Parent` but keeps appending
to `Roots`). -/
theorem claim1_counterexample :
    (layoutValidate unitNet c1Layout).2 = [] ∧
    (layoutValidate unitNet c1Layout).1.roots = ["eth0"] ∧
    (layoutValidate unitNet (layoutValidate unitNet c1Layout).1).1.roots =
      ["eth0", "eth0"] := by
  refine ⟨by decide, by decide, by decide⟩

/-! ## C8: boolean and integer coercion (corrected) -/

/-- **C8** (counterexample): the boolean checker rejects the numeric
values 1 and 0 (as Go `int` or as the `float64` YAML decoding produces),
contradicting "accepts … 1 and 0"; only native booleans and the string
forms are coerced. -/
theorem claim8_counterexample :
    goValidateBool "wakeonlan" (.vint 1) = ([.castBool "wakeonlan"], false, false) ∧
    goValidateBool "wakeonlan" (.vint 0) = ([.castBool "wakeonlan"], false, false) ∧
    goValidateBool "wakeonlan" (.vfloat 1) = ([.castBool "wakeonlan"], false, false) := by
  refine ⟨by decide, by decide, by decide⟩

/-- **C8** (amended): the boolean checker accepts native booleans and
exactly the eight string forms (numeric 1/0 are errors); the integer
checker accepts every Go numeric type and `ParseInt`-parseable strings,
range-checking the converted 64-bit value: `int`/`int64` and parsed
strings pass through, `uint`/`uint64` wrap mod `2^64` into the signed
range (values `≥ 2^63` range-check as negatives), a `float64` is
truncated toward zero whenever the truncation is representable in 64
bits (the conversion of other floats is implementation-defined, so only
the in-range case is asserted, for every conversion `floatCast`
agreeing with the Go spec there); every other input type fails
closed. -/
theorem claim8_amended (floatCast : Rat → Int)
    (hfc : ∀ q, -(2 ^ 63) ≤ ratTrunc q → ratTrunc q ≤ 2 ^ 63 - 1 →
      floatCast q = ratTrunc q)
    (k : String) (lo hi : Int) :
    (∀ b, goValidateBool k (.vbool b) = ([], b, true)) ∧
    (∀ s, (s = "0" ∨ s = "f" ∨ s = "false" ∨ s = "off") →
      goValidateBool k (.vstr s) = ([], false, true)) ∧
    (∀ s, (s = "1" ∨ s = "t" ∨ s = "true" ∨ s = "on") →
      goValidateBool k (.vstr s) = ([], true, true)) ∧
    (∀ v, (∀ b, v ≠ .vbool b) →
      (∀ s, v = .vstr s →
        ¬ (s = "0" ∨ s = "f" ∨ s = "false" ∨ s = "off" ∨
           s = "1" ∨ s = "t" ∨ s = "true" ∨ s = "on")) →
      goValidateBool k v = ([.castBool k], false, false)) ∧
    (∀ n, goValidateInt floatCast k (.vint n) lo hi =
      if lo ≤ n ∧ n ≤ hi then ([], n, true) else ([.outOfRange k n lo hi], n, false)) ∧
    (∀ n, goValidateInt floatCast k (.vint64 n) lo hi =
      if lo ≤ n ∧ n ≤ hi then ([], n, true) else ([.outOfRange k n lo hi], n, false)) ∧
    (∀ n : Nat, goValidateInt floatCast k (.vuint n) lo hi =
      if lo ≤ wrap64 n ∧ wrap64 n ≤ hi then ([], wrap64 n, true)
      else ([.outOfRange k (wrap64 n) lo hi], wrap64 n, false)) ∧
    (∀ n : Nat, goValidateInt floatCast k (.vuint64 n) lo hi =
      if lo ≤ wrap64 n ∧ wrap64 n ≤ hi then ([], wrap64 n, true)
      else ([.outOfRange k (wrap64 n) lo hi], wrap64 n, false)) ∧
    (∀ q, -(2 ^ 63) ≤ ratTrunc q → ratTrunc q ≤ 2 ^ 63 - 1 →
      goValidateInt floatCast k (.vfloat q) lo hi =
      if lo ≤ ratTrunc q ∧ ratTrunc q ≤ hi then ([], ratTrunc q, true)
      else ([.outOfRange k (ratTrunc q) lo hi], ratTrunc q, false)) ∧
    (∀ s n, goParseInt s = some n → goValidateInt floatCast k (.vstr s) lo hi =
      if lo ≤ n ∧ n ≤ hi then ([], n, true) else ([.outOfRange k n lo hi], n, false)) ∧
    (∀ s, goParseInt s = none →
      goValidateInt floatCast k (.vstr s) lo hi = ([.castInt k], 0, false)) ∧
    (∀ b, goValidateInt floatCast k (.vbool b) lo hi = ([.castInt k], 0, false)) ∧
    (∀ t, goValidateInt floatCast k (.vother t) lo hi = ([.castInt k], 0, false)) := by
  refine ⟨fun b => rfl, ?_, ?_, ?_, fun n => rfl, fun n => rfl, fun n => rfl,
    fun n => rfl, ?_, ?_, ?_, fun b => rfl, fun t => rfl⟩
  · intro s hs
    rcases hs with h | h | h | h <;> subst h <;> rfl
  · intro s hs
    rcases hs with h | h | h | h <;> subst h <;> rfl
  · intro v hb hs
    cases v with
    | vbool b => exact absurd rfl (hb b)
    | vstr s =>
      have h := hs s rfl
      push_neg at h
      obtain ⟨h0, hf, hfa, hof, h1, ht, htr, hon⟩ := h
      simp [goValidateBool, h0, hf, hfa, hof, h1, ht, htr, hon]
    | vint n => rfl
    | vuint n => rfl
    | vint64 n => rfl
    | vuint64 n => rfl
    | vfloat q => rfl
    | vother t => rfl
  · intro q h1 h2
    show (if lo ≤ floatCast q ∧ floatCast q ≤ hi then ([], floatCast q, true)
      else ([Emsg.outOfRange k (floatCast q) lo hi], floatCast q, false)) = _
    rw [hfc q h1 h2]
  · intro s n h
    simp [goValidateInt, h]
  · intro s h
    simp [goValidateInt, h]

/-- Witness for `claim8_amended` at concrete inputs, instantiating the
float conversion with plain truncation (one admissible implementation):
the string forms coerce, a `uint64` of `2^63` wraps to `-(2^63)` and
fails the range check, and non-numeric input fails closed. -/
theorem claim8_amended_witness :
    goValidateBool "wol" (.vstr "on") = ([], true, true) ∧
    goValidateInt ratTrunc "id" (.vstr "0x10") 0 100 = ([], 16, true) ∧
    goValidateInt ratTrunc "id" (.vuint64 (2 ^ 63)) 0 100 =
      ([.outOfRange "id" (-(2 ^ 63)) 0 100], -(2 ^ 63), false) ∧
    goValidateBool "wol" (.vother "map") = ([.castBool "wol"], false, false) :=
  ⟨(claim8_amended ratTrunc (fun _ _ _ => rfl) "wol" 0 100).2.2.1 "on" (by simp),
   (claim8_amended ratTrunc (fun _ _ _ => rfl) "id" 0 100).2.2.2.2.2.2.2.2.2.1
     "0x10" 16 (by decide),
   ((claim8_amended ratTrunc (fun _ _ _ => rfl) "id" 0 100).2.2.2.2.2.2.2.1
     (2 ^ 63)).trans (by decide),
   (claim8_amended ratTrunc (fun _ _ _ => rfl) "wol" 0 100).2.2.2.1
     (.vother "map") (by intro b h; cases h) (by intro s h; cases h)⟩

/-! ## C5/C6: the physical matcher -/

theorem foldl_filter_map {β γ : Type _} (cond : β → Bool) (f : β → γ) :
    ∀ (xs : List β) (acc : List γ),
      xs.foldl (fun res x => if cond x then res ++ [f x] else res) acc =
        acc ++ (xs.filter cond).map f := by
  intro xs
  induction xs with
  | nil => intro acc; simp
  | cons x xs ih =>
    intro acc
    by_cases h : cond x <;> simp [h, ih, List.filter_cons]

/-- The per-candidate decision of the Go loop coincides with the
claim's three-filter conjunction whenever the name is not the reserved
token. -/
theorem matchPhysLoop_spec {Net α : Type} (matchStr : α → String → Bool)
    (m : MatchSpec) (rn rd : Option α) (tmpl : Iface Net) (phys : List Phy)
    (hboot : m.name ≠ "bootif") :
    matchPhysLoop matchStr m rn rd tmpl phys =
      matchPhysSpec matchStr m rn rd tmpl phys := by
  unfold matchPhysLoop matchPhysSpec
  have hstep : ∀ (res : List (Iface Net)) (phy : Phy),
      (if (match rd with
           | some r => ! matchStr r phy.driver
           | none => false : Bool) then res
       else if m.macAddress.length > 0 ∧ m.macAddress ≠ phy.hardwareAddr then res
       else if m.name = "bootif" ∧ ¬ phy.bootIf then res
       else if m.name ≠ "bootif" ∧
           ((match rn with
             | some r => ! (matchStr r phy.name || matchStr r phy.stableName ||
                            matchStr r phy.ordinalName)
             | none => false : Bool) = true) then res
       else res ++ [stampPhy tmpl phy]) =
      (if ((rd.all fun r => matchStr r phy.driver) &&
           (m.macAddress.isEmpty || m.macAddress == phy.hardwareAddr) &&
           (rn.all fun r => matchStr r phy.name || matchStr r phy.stableName ||
             matchStr r phy.ordinalName)) then res ++ [stampPhy tmpl phy]
       else res) := by
    intro res phy
    have hb1 : ¬ (m.name = "bootif" ∧ ¬ phy.bootIf) := fun h => hboot h.1
    rcases rd with _ | r <;> rcases rn with _ | rn <;>
      by_cases he : m.macAddress = [] <;>
      by_cases heq : m.macAddress = phy.hardwareAddr <;>
      simp_all [Option.all, hb1, hboot, List.length_pos] <;>
      (try (split_ifs <;> simp_all))
  rw [List.foldl_ext _ _ [] (fun res phy _ => hstep res phy)]
  exact foldl_filter_map _ _ phys []

/-- **C5** (counterexample): the claim quantifies over *every* match
specification, but for the specification whose name is exactly the
reserved token `bootif` the code does not implement the claim's formula.
Candidate `nb` is not flagged as boot interface; the name pattern
(successfully compiled, third conjunct) matches it under the ambient
matcher (`allMS` matches everything), so the claim's formula returns the
stamped candidate (second conjunct) — but `MatchPhys` returns the empty
list (first conjunct). -/
theorem claim5_counterexample :
    MatchPhys okRC allMS { name := "bootif" } ({} : Iface Unit)
      [{ name := "nb" }] = Except.ok [] ∧
    matchPhysSpec allMS { name := "bootif" } (some "^bootif$") none
      ({} : Iface Unit) [{ name := "nb" }] =
      [stampPhy {} { name := "nb" }] ∧
    (if ("bootif" : String) = "" then Except.ok none
     else (Glob2RE okRC "bootif").map some) =
      Except.ok (some ("^bootif$" : String)) := by
  refine ⟨rfl, rfl, rfl⟩

/-- **C5** (amended): for every match specification whose name is *not*
the reserved token `bootif`, `MatchPhys` returns exactly the candidates
for which (the driver pattern is absent or matches the driver) and (the
MAC is absent or byte-for-byte equal) and (the name pattern is absent or
matches the primary, OS-stable or ordinal name), each freshly stamped as
a physical-typed node from the template; the candidate list is consumed
purely (the embedding is a pure function of it).  `rn`/`rd` are the
successfully compiled name/driver patterns. -/
theorem claim5_amended {Net α : Type} (rcompile : String → Except String α)
    (matchStr : α → String → Bool) (m : MatchSpec) (tmpl : Iface Net)
    (phys : List Phy) (rn rd : Option α)
    (hboot : m.name ≠ "bootif")
    (hrn : (if m.name = "" then Except.ok none
            else (Glob2RE rcompile m.name).map some) = Except.ok rn)
    (hrd : (if m.driver = "" then Except.ok none
            else (Glob2RE rcompile m.driver).map some) = Except.ok rd) :
    MatchPhys rcompile matchStr m tmpl phys =
      Except.ok (matchPhysSpec matchStr m rn rd tmpl phys) := by
  unfold MatchPhys
  rw [hrn, hrd]
  exact congrArg Except.ok (matchPhysLoop_spec matchStr m rn rd tmpl phys hboot)

/-- Witness for `claim5_amended` at a concrete input. -/
theorem claim5_amended_witness :
    MatchPhys okRC allMS { name := "enp1s0" } ({} : Iface Unit)
      [{ name := "enp1s0" }, { name := "enp2s0" }] =
      Except.ok (matchPhysSpec allMS { name := "enp1s0" }
        (some "^enp1s0$") none ({} : Iface Unit)
        [{ name := "enp1s0" }, { name := "enp2s0" }]) :=
  claim5_amended okRC allMS { name := "enp1s0" } ({} : Iface Unit)
    [{ name := "enp1s0" }, { name := "enp2s0" }] (some "^enp1s0$") none
    (by decide) rfl rfl

/-- The per-candidate decision of the Go loop in the boot-interface
case. -/
theorem matchPhysLoopBoot_spec {Net α : Type} (matchStr : α → String → Bool)
    (m : MatchSpec) (rn rd : Option α) (tmpl : Iface Net) (phys : List Phy)
    (hboot : m.name = "bootif") :
    matchPhysLoop matchStr m rn rd tmpl phys =
      matchPhysBootSpec matchStr m rd tmpl phys := by
  unfold matchPhysLoop matchPhysBootSpec
  have hstep : ∀ (res : List (Iface Net)) (phy : Phy),
      (if (match rd with
           | some r => ! matchStr r phy.driver
           | none => false : Bool) then res
       else if m.macAddress.length > 0 ∧ m.macAddress ≠ phy.hardwareAddr then res
       else if m.name = "bootif" ∧ ¬ phy.bootIf then res
       else if m.name ≠ "bootif" ∧
           ((match rn with
             | some r => ! (matchStr r phy.name || matchStr r phy.stableName ||
                            matchStr r phy.ordinalName)
             | none => false : Bool) = true) then res
       else res ++ [stampPhy tmpl phy]) =
      (if ((rd.all fun r => matchStr r phy.driver) &&
           (m.macAddress.isEmpty || m.macAddress == phy.hardwareAddr) &&
           phy.bootIf) then res ++ [stampPhy tmpl phy]
       else res) := by
    intro res phy
    have hb2 : ¬ (m.name ≠ "bootif" ∧
        ((match rn with
          | some r => ! (matchStr r phy.name || matchStr r phy.stableName ||
                         matchStr r phy.ordinalName)
          | none => false : Bool) = true)) := fun h => h.1 hboot
    rcases rd with _ | r <;>
      by_cases he : m.macAddress = [] <;>
      by_cases heq : m.macAddress = phy.hardwareAddr <;>
      by_cases hbi : phy.bootIf <;>
      simp_all [Option.all, List.length_pos] <;>
      (try (split_ifs <;> simp_all))
  rw [List.foldl_ext _ _ [] (fun res phy _ => hstep res phy)]
  exact foldl_filter_map _ _ phys []

/-- **C6**: when the match specification's name is exactly `bootif`,
`MatchPhys` returns exactly the candidates flagged as boot interface
that also pass the driver and MAC filters; the name-pattern check is
never consulted (the conclusion does not depend on `rn`). -/
theorem claim6_bootif {Net α : Type} (rcompile : String → Except String α)
    (matchStr : α → String → Bool) (m : MatchSpec) (tmpl : Iface Net)
    (phys : List Phy) (rn rd : Option α)
    (hboot : m.name = "bootif")
    (hrn : (if m.name = "" then Except.ok none
            else (Glob2RE rcompile m.name).map some) = Except.ok rn)
    (hrd : (if m.driver = "" then Except.ok none
            else (Glob2RE rcompile m.driver).map some) = Except.ok rd) :
    MatchPhys rcompile matchStr m tmpl phys =
      Except.ok (matchPhysBootSpec matchStr m rd tmpl phys) := by
  unfold MatchPhys
  rw [hrn, hrd]
  exact congrArg Except.ok (matchPhysLoopBoot_spec matchStr m rn rd tmpl phys hboot)

/-- Witness for `claim6_bootif` at a concrete input: only the flagged
candidate (`eno1`) survives, even though the pattern would match all
names. -/
theorem claim6_bootif_witness :
    MatchPhys okRC allMS { name := "bootif" } ({} : Iface Unit)
      [{ name := "enp1s0" }, { name := "eno1", bootIf := true }] =
      Except.ok (matchPhysBootSpec allMS { name := "bootif" } none
        ({} : Iface Unit)
        [{ name := "enp1s0" }, { name := "eno1", bootIf := true }]) :=
  claim6_bootif okRC allMS { name := "bootif" } ({} : Iface Unit)
    [{ name := "enp1s0" }, { name := "eno1", bootIf := true }]
    (some "^bootif$") none rfl rfl rfl

/-! ## C7: the glob-to-regexp translation -/

theorem quoteMetaL_cons (c : Char) (cs : List Char) :
    quoteMetaL (c :: cs) =
      (if reSpecial c then ['\\', c] else [c]) ++ quoteMetaL cs := rfl

theorem replace2_hit (a b : Char) (rep rest : List Char) :
    replace2 a b rep (a :: b :: rest) = rep ++ replace2 a b rep rest := by
  simp [replace2]

theorem replace2_cons_safe (a b : Char) (rep : List Char) (c : Char)
    (rest : List Char) (h : ¬ (c = a ∧ rest.head? = some b)) :
    replace2 a b rep (c :: rest) = c :: replace2 a b rep rest := by
  cases rest with
  | nil => rfl
  | cons d rest =>
    have h2 : ¬ (c = a ∧ d = b) := fun hc => h ⟨hc.1, by simp [hc.2]⟩
    simp [replace2, h2]

/-- `*`-stage escape: what `QuoteMeta` + the `\*` replacement produce
per character. -/
def esc1 (c : Char) : List Char :=
  if c = '*' then ['.', '*']
  else if reSpecial c then ['\\', c]
  else [c]

theorem quoteMetaL_head (cs : List Char) :
    (quoteMetaL cs).head? ≠ some '*' := by
  cases cs with
  | nil => simp [quoteMetaL]
  | cons c cs =>
    rw [quoteMetaL_cons]
    by_cases h : reSpecial c
    · rw [if_pos h]; simp
    · rw [if_neg h, List.singleton_append, List.head?_cons]
      intro hc
      rw [Option.some_inj] at hc
      subst hc
      simp [reSpecial] at h

theorem replace2_star (cs : List Char) :
    replace2 '\\' '*' ['.', '*'] (quoteMetaL cs) = (cs.map esc1).flatten := by
  induction cs with
  | nil => rfl
  | cons c cs ih =>
    rw [quoteMetaL_cons, List.map_cons, List.flatten_cons]
    by_cases h : reSpecial c
    · rw [if_pos h]
      by_cases hstar : c = '*'
      · subst hstar
        rw [show (['\\', '*'] ++ quoteMetaL cs) = '\\' :: '*' :: quoteMetaL cs
            from rfl]
        rw [replace2_hit, ih]
        simp [esc1]
      · rw [show (['\\', c] ++ quoteMetaL cs) = '\\' :: c :: quoteMetaL cs
            from rfl]
        have hmm : ¬ ('\\' = '\\' ∧ c = '*') := fun hc => hstar hc.2
        rw [show replace2 '\\' '*' ['.', '*'] ('\\' :: c :: quoteMetaL cs) =
            '\\' :: replace2 '\\' '*' ['.', '*'] (c :: quoteMetaL cs)
            from by simp [replace2, hstar]]
        rw [replace2_cons_safe _ _ _ _ _ (fun hc => quoteMetaL_head cs hc.2), ih]
        simp [esc1, hstar, h]
    · rw [if_neg h, List.singleton_append]
      have hns : c ≠ '\\' := fun hc => by subst hc; simp [reSpecial] at h
      have hstar : c ≠ '*' := fun hc => by subst hc; simp [reSpecial] at h
      rw [replace2_cons_safe _ _ _ _ _ (fun hc => hns hc.1), ih]
      simp [esc1, h, hstar]

theorem esc1_join_head (cs : List Char) :
    ((cs.map esc1).flatten).head? ≠ some '?' := by
  cases cs with
  | nil => simp
  | cons c cs =>
    rw [List.map_cons, List.flatten_cons]
    by_cases hstar : c = '*'
    · subst hstar; simp [esc1]
    · by_cases h : reSpecial c
      · simp [esc1, hstar, h]
      · rw [show esc1 c = [c] from by simp [esc1, hstar, h],
          List.singleton_append, List.head?_cons]
        intro hc
        rw [Option.some_inj] at hc
        subst hc
        simp [reSpecial] at h

theorem replace2_question (cs : List Char) :
    replace2 '\\' '?' ['.'] ((cs.map esc1).flatten) = (cs.map escGlob).flatten := by
  induction cs with
  | nil => rfl
  | cons c cs ih =>
    rw [List.map_cons, List.flatten_cons, List.map_cons, List.flatten_cons]
    by_cases hstar : c = '*'
    · subst hstar
      rw [show esc1 '*' = ['.', '*'] from rfl,
        show escGlob '*' = ['.', '*'] from rfl]
      rw [show (['.', '*'] ++ (cs.map esc1).flatten) =
          '.' :: '*' :: (cs.map esc1).flatten from rfl]
      rw [replace2_cons_safe _ _ _ _ _ (fun hc => by simp at hc)]
      rw [replace2_cons_safe _ _ _ _ _ (fun hc => by simp at hc)]
      rw [ih]
      rfl
    · by_cases h : reSpecial c
      · by_cases hq : c = '?'
        · subst hq
          rw [show esc1 '?' = ['\\', '?'] from rfl,
            show escGlob '?' = ['.'] from rfl]
          rw [show (['\\', '?'] ++ (cs.map esc1).flatten) =
              '\\' :: '?' :: (cs.map esc1).flatten from rfl]
          rw [replace2_hit, ih]
        · rw [show esc1 c = ['\\', c] from by simp [esc1, hstar, h],
            show escGlob c = ['\\', c] from by simp [escGlob, hstar, hq, h]]
          rw [show (['\\', c] ++ (cs.map esc1).flatten) =
              '\\' :: c :: (cs.map esc1).flatten from rfl]
          have hmm : ¬ ('\\' = '\\' ∧ c = '?') := fun hc => hq hc.2
          rw [show replace2 '\\' '?' ['.'] ('\\' :: c :: (cs.map esc1).flatten) =
              '\\' :: replace2 '\\' '?' ['.'] (c :: (cs.map esc1).flatten)
              from by simp [replace2, hq]]
          rw [replace2_cons_safe _ _ _ _ _ (fun hc => esc1_join_head cs hc.2), ih]
          rfl
      · have hns : c ≠ '\\' := fun hc => by subst hc; simp [reSpecial] at h
        have hq : c ≠ '?' := fun hc => by subst hc; simp [reSpecial] at h
        rw [show esc1 c = [c] from by simp [esc1, hstar, h],
          show escGlob c = [c] from by simp [escGlob, hstar, hq, h],
          List.singleton_append, List.singleton_append]
        rw [replace2_cons_safe _ _ _ _ _ (fun hc => hns hc.1), ih]

/-- The translated pattern is exactly the claim's per-character map,
anchored on both ends. -/
theorem glob2reStr_perchar (s : String) :
    glob2reStr s = ⟨'^' :: (((s.data.map escGlob).flatten) ++ ['$'])⟩ := by
  unfold glob2reStr
  rw [replace2_star, replace2_question]
  simp

/-- **C7**: for every non-empty pattern, the glob compilation treats
only `*` and `?` as special (translated to `.*` and `.`), escapes every
other regexp metacharacter and keeps ordinary characters (first
conjunct: the compiled source is the anchored per-character
translation); a pattern beginning with `^` is handed to the regexp
engine as written (second conjunct); and a compilation failure makes
`MatchPhys` return the reported error rather than panic (third
conjunct). -/
theorem claim7_glob2re {Net α : Type} (rcompile : String → Except String α)
    (matchStr : α → String → Bool) :
    (∀ s : String, s ≠ "" → s.data.head? ≠ some '^' →
      Glob2RE rcompile s =
        rcompile ⟨'^' :: (((s.data.map escGlob).flatten) ++ ['$'])⟩) ∧
    (∀ s : String, s.data.head? = some '^' →
      Glob2RE rcompile s = rcompile s) ∧
    (∀ (m : MatchSpec) (tmpl : Iface Net) (phys : List Phy) (msg : String),
      m.name ≠ "" → Glob2RE rcompile m.name = Except.error msg →
      MatchPhys rcompile matchStr m tmpl phys = Except.error msg) := by
  refine ⟨?_, ?_, ?_⟩
  · intro s h1 h2
    rw [Glob2RE, if_neg h1, if_neg h2, glob2reStr_perchar]
  · intro s h
    have h1 : s ≠ "" := by
      intro he; subst he; simp at h
    rw [Glob2RE, if_neg h1, if_pos h]
  · intro m tmpl phys msg hne herr
    unfold MatchPhys
    rw [if_neg hne, herr]
    simp [Except.map]

/-- Witness for `claim7_glob2re` at concrete inputs. -/
theorem claim7_glob2re_witness :
    Glob2RE okRC "a.b*" =
      okRC ⟨'^' :: (((("a.b*" : String).data.map escGlob).flatten) ++ ['$'])⟩ ∧
    Glob2RE okRC "^ra[w]$" = okRC "^ra[w]$" ∧
    MatchPhys (fun _ => (Except.error "boom" : Except String Unit))
      (fun _ _ => true) { name := "x" } ({} : Iface Unit) [] =
      Except.error "boom" :=
  ⟨(@claim7_glob2re Unit String okRC allMS).1 "a.b*" (by decide) (by decide),
   (@claim7_glob2re Unit String okRC allMS).2.1 "^ra[w]$" (by decide),
   (claim7_glob2re (fun _ => (Except.error "boom" : Except String Unit))
      (fun _ _ => true)).2.2 { name := "x" } ({} : Iface Unit) [] "boom"
      (by decide) rfl⟩

/-! ## C2: determinism and sortedness of the compiled graph -/

theorem alookup_isSome_of_mem_akeys {α : Type _} (m : List (String × α))
    (k : String) (h : k ∈ akeys m) : (alookup m k).isSome := by
  induction m with
  | nil => simp [akeys] at h
  | cons hd tl ih =>
    obtain ⟨k₀, v₀⟩ := hd
    by_cases hk : k₀ = k
    · simp [alookup, hk]
    · simp [akeys, hk] at h
      rcases h with h | h
      · exact absurd h.symm hk
      · simp only [alookup, if_neg hk]
        exact ih (by simpa [akeys] using h)

theorem alookup_mem {A : Type _} (m : List (String × A)) (k : String) (v : A)
    (h : alookup m k = some v) : (k, v) ∈ m := by
  induction m with
  | nil => simp [alookup] at h
  | cons hd tl ih =>
    obtain ⟨kz, vz⟩ := hd
    by_cases hk : kz = k
    · subst hk
      simp [alookup] at h
      simp [h]
    · simp only [alookup, if_neg hk] at h
      exact List.mem_cons_of_mem _ (ih h)

theorem oStep_shape {Net : Type} (i child : Iface Net)
    (acc : Layout Net × List Emsg) (otherName : String) :
    (oStep i child acc otherName).1.interfaces = acc.1.interfaces ∧
    (oStep i child acc otherName).1.roots = acc.1.roots := by
  unfold oStep
  dsimp only
  split_ifs <;> exact ⟨rfl, rfl⟩

theorem ownStep_shape {Net : Type} (i child : Iface Net) (name : String)
    (l : Layout Net) :
    (ownStep i child name l).1.interfaces = l.interfaces ∧
    (ownStep i child name l).1.roots = l.roots := by
  unfold ownStep
  cases h : alookup l.child2Parent name with
  | none => exact ⟨rfl, rfl⟩
  | some otherNames =>
    exact @foldlInv (Layout Net × List Emsg) String
      (fun acc => acc.1.interfaces = l.interfaces ∧ acc.1.roots = l.roots)
      (oStep i child)
      (fun s b hs => by
        obtain ⟨h1, h2⟩ := oStep_shape i child s b
        exact ⟨h1.trans hs.1, h2.trans hs.2⟩)
      otherNames (l, []) ⟨rfl, rfl⟩

theorem memberStep_shape {Net : Type} (i : Iface Net) (l : Layout Net)
    (name : String) :
    (memberStep i l name).1.interfaces = l.interfaces ∧
    (memberStep i l name).1.roots = l.roots := by
  unfold memberStep
  cases alookup l.interfaces name with
  | none => exact ⟨rfl, rfl⟩
  | some child =>
    simp only []
    split_ifs <;> first | exact ⟨rfl, rfl⟩ | exact ownStep_shape i child name l

theorem ifaceValidate_roots {Net : Type} (netValidate : Net → List String)
    (l : Layout Net) (k : String) :
    (ifaceValidate netValidate l k).1.roots = l.roots := by
  unfold ifaceValidate
  dsimp only
  by_cases hp : (ifaceZ l.interfaces k).type_ = "physical"
  · rw [if_pos hp]
  · rw [if_neg hp]
    apply @foldlInv (Layout Net × List Emsg) String
      (fun acc => acc.1.roots = l.roots)
      (mStep (ifaceZ l.interfaces k))
      (fun s b hs => by
        unfold mStep
        exact (memberStep_shape _ s.1 b).2.trans hs)
    rfl

theorem stripStep_c2p_roots {Net : Type} (st : Layout Net) (k : String) :
    (stripStep st k).child2Parent = st.child2Parent ∧
    (stripStep st k).roots = st.roots := by
  unfold stripStep
  dsimp only
  split_ifs
  · apply @foldlInv (Layout Net) String
      (fun s => s.child2Parent = st.child2Parent ∧ s.roots = st.roots)
      stripChild
      (fun s b hs => by unfold stripChild; dsimp only; exact hs)
    exact ⟨rfl, rfl⟩
  · exact ⟨rfl, rfl⟩

theorem oStep_c2pSorted {Net : Type} (i child : Iface Net)
    (acc : Layout Net × List Emsg) (otherName : String)
    (h : allC2PSorted acc.1) : allC2PSorted (oStep i child acc otherName).1 := by
  unfold oStep
  dsimp only
  split_ifs <;> try exact h
  intro p hp
  rcases mem_aset _ _ _ p hp with hm | hm
  · exact h p hm
  · rw [hm]
    exact ssort_sorted _

theorem ownStep_c2pSorted {Net : Type} (i child : Iface Net) (name : String)
    (l : Layout Net) (h : allC2PSorted l) :
    allC2PSorted (ownStep i child name l).1 := by
  unfold ownStep
  cases hl : alookup l.child2Parent name with
  | none =>
    intro p hp
    rcases mem_aset _ _ _ p hp with hm | hm
    · exact h p hm
    · rw [hm]; exact List.sorted_singleton _
  | some otherNames =>
    exact @foldlInv (Layout Net × List Emsg) String
      (fun acc => allC2PSorted acc.1) (oStep i child)
      (fun s b hs => oStep_c2pSorted i child s b hs)
      otherNames (l, []) h

theorem memberStep_c2pSorted {Net : Type} (i : Iface Net) (l : Layout Net)
    (name : String) (h : allC2PSorted l) :
    allC2PSorted (memberStep i l name).1 := by
  unfold memberStep
  cases alookup l.interfaces name with
  | none => exact h
  | some child =>
    simp only []
    split_ifs <;> first | exact h | exact ownStep_c2pSorted i child name l h

theorem ifaceValidate_c2pSorted {Net : Type} (netValidate : Net → List String)
    (l : Layout Net) (k : String) (h : allC2PSorted l) :
    allC2PSorted (ifaceValidate netValidate l k).1 := by
  unfold ifaceValidate
  dsimp only
  by_cases hp : (ifaceZ l.interfaces k).type_ = "physical"
  · rw [if_pos hp]; exact h
  · rw [if_neg hp]
    apply @foldlInv (Layout Net × List Emsg) String
      (fun acc => allC2PSorted acc.1) (mStep (ifaceZ l.interfaces k))
      (fun s b hs => by
        unfold mStep
        exact memberStep_c2pSorted _ s.1 b hs)
    exact h

theorem ifaceValidate_memSorted {Net : Type} (netValidate : Net → List String)
    (l : Layout Net) (k : String) (h : allMemSorted l) :
    allMemSorted (ifaceValidate netValidate l k).1 := by
  unfold ifaceValidate
  dsimp only
  by_cases hp : (ifaceZ l.interfaces k).type_ = "physical"
  · rw [if_pos hp]; exact h
  · rw [if_neg hp]
    apply @foldlInv (Layout Net × List Emsg) String
      (fun acc => allMemSorted acc.1) (mStep (ifaceZ l.interfaces k))
      (fun s b hs => by
        unfold mStep
        have hshape := (memberStep_shape (ifaceZ l.interfaces k) s.1 b).1
        intro p hp
        rw [hshape] at hp
        exact hs p hp)
    intro p hp
    rcases mem_aset _ _ _ p hp with hm | hm
    · exact h p hm
    · rw [hm]
      exact ssort_sorted _

theorem stripStep_memSorted {Net : Type} (st : Layout Net) (k : String)
    (h : allMemSorted st) : allMemSorted (stripStep st k) := by
  unfold stripStep
  dsimp only
  split_ifs
  · apply @foldlInv (Layout Net) String allMemSorted stripChild
      (fun s b hs => by
        unfold stripChild
        dsimp only
        intro p hp
        rcases mem_aset _ _ _ p hp with hm | hm
        · exact hs p hm
        · rw [hm]
          show List.Sorted SLe (ifaceZ s.interfaces b).interfaces
          unfold ifaceZ
          cases hl : alookup s.interfaces b with
          | none => simp
          | some v => exact hs (b, v) (alookup_mem _ _ _ hl))
    exact h
  · exact h

theorem layoutValidate_sortedness {Net : Type} (netValidate : Net → List String)
    (l : Layout Net) (hroots : l.roots = []) (hmem : allMemSorted l) :
    List.Sorted SLe (layoutValidate netValidate l).1.roots ∧
    allMemSorted (layoutValidate netValidate l).1 ∧
    allC2PSorted (layoutValidate netValidate l).1 := by
  unfold layoutValidate
  simp only []
  set l₀ : Layout Net := { l with child2Parent := ([] : List (String × List String)) } with hl₀
  set members := ssort (akeys l₀.interfaces) with hmembers
  set p1 := members.foldl (p1Step netValidate) (l₀, []) with hp1
  have hp1inv : p1.1.roots = l.roots ∧ allMemSorted p1.1 ∧ allC2PSorted p1.1 := by
    rw [hp1]
    refine @foldlInv (Layout Net × List Emsg) String
      (fun acc => acc.1.roots = l.roots ∧ allMemSorted acc.1 ∧ allC2PSorted acc.1)
      (p1Step netValidate)
      (fun s b hs => by
        unfold p1Step
        exact ⟨(ifaceValidate_roots netValidate s.1 b).trans hs.1,
          ifaceValidate_memSorted netValidate s.1 b hs.2.1,
          ifaceValidate_c2pSorted netValidate s.1 b hs.2.2⟩)
      members (l₀, []) ⟨rfl, hmem, fun p hp => by simp [hl₀] at hp⟩
  split_ifs
  · exact ⟨hp1inv.1 ▸ hroots ▸ List.sorted_nil, hp1inv.2.1, hp1inv.2.2⟩
  · have hstrip : ∀ st : Layout Net, (allMemSorted st ∧ allC2PSorted st ∧
        st.child2Parent = p1.1.child2Parent) →
        allMemSorted (members.foldl stripStep st) ∧
        allC2PSorted (members.foldl stripStep st) ∧
        (members.foldl stripStep st).child2Parent = p1.1.child2Parent := by
      intro st hst
      exact @foldlInv (Layout Net) String
        (fun s => allMemSorted s ∧ allC2PSorted s ∧
          s.child2Parent = p1.1.child2Parent) stripStep
        (fun s b hs => ⟨stripStep_memSorted s b hs.1,
          fun p hp => hs.2.1 p (((stripStep_c2p_roots s b).1) ▸ hp),
          ((stripStep_c2p_roots s b).1).trans hs.2.2⟩)
        members st hst
    obtain ⟨hm1, hc1, _⟩ := hstrip p1.1 ⟨hp1inv.2.1, hp1inv.2.2, rfl⟩
    exact ⟨ssort_sorted _, hm1, hc1⟩

/-- **C2**: compiling the same declaration set and discovered-NIC list
twice produces identical graphs (the embedded compiler is a pure
function, first conjunct), and in every produced graph the roots list,
every node's member list, and every child's parent list are sorted in
the lexicographic string order `SLe` (remaining conjuncts).  The
statement quantifies over every parser/regexp instantiation, so it
covers every declaration set. -/
theorem claim2_deterministic_sorted {Net Decl α : Type}
    (netValidate : Net → List String) (rcompile : String → Except String α)
    (matchStr : α → String → Bool) (phys : List Phy)
    (parseEth : String → Decl → List Emsg × Option (PhyRec Net))
    (parseBond parseBridge parseVlan :
      String → Decl → List Emsg × Option (Iface Net))
    (version : Int) (wifis : Bool)
    (eths bonds bridges vlans : List (String × Decl)) :
    compile netValidate rcompile matchStr phys parseEth parseBond parseBridge
        parseVlan version wifis eths bonds bridges vlans =
      compile netValidate rcompile matchStr phys parseEth parseBond parseBridge
        parseVlan version wifis eths bonds bridges vlans ∧
    List.Sorted SLe (compile netValidate rcompile matchStr phys parseEth
      parseBond parseBridge parseVlan version wifis eths bonds bridges
      vlans).1.roots ∧
    allMemSorted (compile netValidate rcompile matchStr phys parseEth
      parseBond parseBridge parseVlan version wifis eths bonds bridges
      vlans).1 ∧
    allC2PSorted (compile netValidate rcompile matchStr phys parseEth
      parseBond parseBridge parseVlan version wifis eths bonds bridges
      vlans).1 := by
  have hmem : ∀ (st : CState Net),
      allMemSorted ({ interfaces := st.interfaces.map fun kv =>
        (kv.1, { kv.2 with interfaces :=
          (realSubs st.matchChildren kv.2.interfaces) }) } : Layout Net) := by
    intro st p hp
    simp only [List.mem_map] at hp
    obtain ⟨a, ha, hpe⟩ := hp
    rw [← hpe]
    exact ssort_sorted _
  refine ⟨rfl, ?_, ?_, ?_⟩ <;>
    (first
      | exact (layoutValidate_sortedness netValidate _ rfl (hmem _)).1
      | exact (layoutValidate_sortedness netValidate _ rfl (hmem _)).2.1
      | exact (layoutValidate_sortedness netValidate _ rfl (hmem _)).2.2)

/-- Witness for `claim2_deterministic_sorted` at a concrete (empty)
input. -/
theorem claim2_deterministic_sorted_witness :
    List.Sorted SLe ((compile unitNet okRC allMS []
      (fun _ (_ : Unit) => ([], none)) (fun _ _ => ([], none))
      (fun _ _ => ([], none)) (fun _ _ => ([], none))
      2 false [] [] [] []).1).roots :=
  (claim2_deterministic_sorted unitNet okRC allMS []
    (fun _ (_ : Unit) => ([], none)) (fun _ _ => ([], none))
    (fun _ _ => ([], none)) (fun _ _ => ([], none))
    2 false [] [] [] []).2.1

/-! ## C9: ethernet expansion in the compiler -/

theorem addOtherSubs_presVal {Net α : Type}
    (rcompile : String → Except String α) (matchStr : α → String → Bool)
    (phys : List Phy) :
    ∀ (ks : List String) (st : CState Net) (x : String) (v : Iface Net),
      alookup st.interfaces x = some v →
      alookup (addOtherSubs rcompile matchStr phys ks st).interfaces x = some v := by
  intro ks
  induction ks with
  | nil => intro st x v h; exact h
  | cons k rest ih =>
    intro st x v h
    unfold addOtherSubs
    cases MatchPhys rcompile matchStr { name := k } ({} : Iface Net) phys with
    | error msg => exact h
    | ok subs =>
      dsimp only
      apply ih
      refine @foldlInv (CState Net) (Iface Net)
        (fun s => alookup s.interfaces x = some v) _ ?_ subs st h
      intro s b hs
      dsimp only
      split_ifs with hnone
      · dsimp only
        rw [alookup_aset]
        split_ifs with hkx
        · rw [hkx] at hnone
          rw [hs] at hnone
          simp at hnone
        · exact hs
      · exact hs

theorem addOther_present {Net α : Type}
    (rcompile : String → Except String α) (matchStr : α → String → Bool)
    (phys : List Phy) (st : CState Net) (name mid : String) (intf : Iface Net) :
    (alookup (addOther rcompile matchStr phys st name mid intf).interfaces
      name).isSome := by
  unfold addOther
  dsimp only
  cases hd : alookup st.interfaces name with
  | some other =>
    dsimp only
    have h2 := addOtherSubs_presVal rcompile matchStr phys
      ({ intf with name := name, matchID := mid }).interfaces
      { st with errs := st.errs ++ [.duplicateDef name other.type_] }
      name other hd
    rw [h2]
    rfl
  | none =>
    dsimp only
    have h2 := addOtherSubs_presVal rcompile matchStr phys
      ({ intf with name := name, matchID := mid }).interfaces
      { st with interfaces :=
        (aset st.interfaces name { intf with name := name, matchID := mid }) }
      name { intf with name := name, matchID := mid } (by
        show alookup (aset st.interfaces name _) name = _
        rw [alookup_aset]
        simp)
    rw [h2]
    rfl

theorem addOther_presVal {Net α : Type}
    (rcompile : String → Except String α) (matchStr : α → String → Bool)
    (phys : List Phy) (st : CState Net) (name mid : String) (intf : Iface Net)
    (x : String) (v : Iface Net) (h : alookup st.interfaces x = some v) :
    (alookup (addOther rcompile matchStr phys st name mid intf).interfaces x) =
      some v := by
  unfold addOther
  dsimp only
  cases hd : alookup st.interfaces name with
  | some other =>
    exact addOtherSubs_presVal rcompile matchStr phys _ _ x v h
  | none =>
    refine addOtherSubs_presVal rcompile matchStr phys _ _ x v ?_
    dsimp only
    rw [alookup_aset]
    split_ifs with hnx
    · rw [hnx] at hd
      rw [hd] at h
      cases h
    · exact h

theorem addOther_adds {Net α : Type}
    (rcompile : String → Except String α) (matchStr : α → String → Bool)
    (phys : List Phy) (st : CState Net) (name mid : String) (intf : Iface Net)
    (h : alookup st.interfaces name = none) :
    alookup (addOther rcompile matchStr phys st name mid intf).interfaces name =
      some { intf with name := name, matchID := mid } := by
  unfold addOther
  dsimp only
  rw [h]
  dsimp only
  refine addOtherSubs_presVal rcompile matchStr phys _ _ name _ ?_
  dsimp only
  rw [alookup_aset]
  simp

theorem addOtherSubs_mc {Net α : Type}
    (rcompile : String → Except String α) (matchStr : α → String → Bool)
    (phys : List Phy) :
    ∀ (ks : List String) (st : CState Net),
      (addOtherSubs rcompile matchStr phys ks st).matchChildren =
        st.matchChildren := by
  intro ks
  induction ks with
  | nil => intro st; rfl
  | cons k rest ih =>
    intro st
    unfold addOtherSubs
    cases MatchPhys rcompile matchStr { name := k } ({} : Iface Net) phys with
    | error msg => rfl
    | ok subs =>
      dsimp only
      rw [ih]
      refine @foldlInv (CState Net) (Iface Net)
        (fun s => s.matchChildren = st.matchChildren) _ ?_ subs st rfl
      intro s b hs
      dsimp only
      split_ifs <;> exact hs

theorem addOther_mc {Net α : Type}
    (rcompile : String → Except String α) (matchStr : α → String → Bool)
    (phys : List Phy) (st : CState Net) (name mid : String) (intf : Iface Net) :
    (addOther rcompile matchStr phys st name mid intf).matchChildren =
      st.matchChildren := by
  unfold addOther
  dsimp only
  cases alookup st.interfaces name <;>
    exact addOtherSubs_mc rcompile matchStr phys _ _

theorem addOther_presSome {Net α : Type}
    (rcompile : String → Except String α) (matchStr : α → String → Bool)
    (phys : List Phy) (st : CState Net) (name mid : String) (intf : Iface Net)
    (x : String) (h : (alookup st.interfaces x).isSome) :
    (alookup (addOther rcompile matchStr phys st name mid intf).interfaces
      x).isSome := by
  cases hv : alookup st.interfaces x with
  | none => rw [hv] at h; cases h
  | some v =>
    rw [addOther_presVal rcompile matchStr phys st name mid intf x v hv]
    rfl

theorem foldAddOther_present {Net α : Type}
    (rcompile : String → Except String α) (matchStr : α → String → Bool)
    (phys : List Phy) (mid : String) :
    ∀ (l : List (Iface Net)) (st : CState Net) (r : Iface Net), r ∈ l →
      (alookup ((l.foldl (fun st r =>
        addOther rcompile matchStr phys st r.name mid r) st).interfaces)
        r.name).isSome := by
  intro l
  induction l with
  | nil => intro st r hr; cases hr
  | cons hd tl ih =>
    intro st r hr
    rcases List.mem_cons.mp hr with hr | hr
    · subst hr
      rw [List.foldl_cons]
      refine @foldlInv (CState Net) (Iface Net)
        (fun s => (alookup s.interfaces r.name).isSome)
        _ ?_ tl _ (addOther_present rcompile matchStr phys st r.name mid r)
      intro s b hs
      exact addOther_presSome rcompile matchStr phys s b.name mid b r.name hs
    · rw [List.foldl_cons]
      exact ih _ r hr

/-- **C9**: for every ethernet declaration `(k, d)` whose parse
succeeds: if its match specification resolves to zero physical
candidates, the compiler records a `zeroMatches` error and the step
changes nothing else — no node and no match-children entry is
contributed (first conjunct); if it resolves to a non-empty candidate
list, the declared key `k` is mapped to the list of resolved concrete
names and every resolved candidate is present as a node afterwards
(second conjunct); a resolved candidate whose name is not yet present
is added as its own node, stamped with the declared key as match id
(third conjunct, about `addOther`); and the declaration loop simply
folds on, so siblings continue to be processed after an error (fourth
conjunct). -/
theorem claim9_zero_match {Net Decl α : Type}
    (rcompile : String → Except String α) (matchStr : α → String → Bool)
    (phys : List Phy)
    (parseEth : String → Decl → List Emsg × Option (PhyRec Net))
    (st : CState Net) (k : String) (d : Decl) (msgs : List Emsg)
    (p : PhyRec Net) (hp : parseEth k d = (msgs, some p)) :
    (phyRecMatch rcompile matchStr phys
        { p with intf := { p.intf with matchID := k } } = Except.ok [] →
      ethStep rcompile matchStr phys parseEth st (k, d) =
        { st with errs := st.errs ++ msgs ++ [.zeroMatches k] }) ∧
    (∀ realInts : List (Iface Net), realInts ≠ [] →
      phyRecMatch rcompile matchStr phys
        { p with intf := { p.intf with matchID := k } } = Except.ok realInts →
      alookup (ethStep rcompile matchStr phys parseEth st (k, d)).matchChildren
          k = some (realInts.map (·.name)) ∧
      (∀ r ∈ realInts,
        (alookup (ethStep rcompile matchStr phys parseEth st (k, d)).interfaces
          r.name).isSome)) ∧
    (∀ (st' : CState Net) (name mid : String) (intf : Iface Net),
      alookup st'.interfaces name = none →
      alookup (addOther rcompile matchStr phys st' name mid intf).interfaces
          name = some { intf with name := name, matchID := mid }) ∧
    (∀ rest : List (String × Decl),
      List.foldl (ethStep rcompile matchStr phys parseEth) st ((k, d) :: rest) =
        List.foldl (ethStep rcompile matchStr phys parseEth)
          (ethStep rcompile matchStr phys parseEth st (k, d)) rest) := by
  refine ⟨?_, ?_, ?_, ?_⟩
  · intro hm
    unfold ethStep
    dsimp only
    rw [hp]
    dsimp only
    rw [hm]
    dsimp only
    simp [List.append_assoc]
  · intro realInts hne hm
    unfold ethStep
    dsimp only
    rw [hp]
    dsimp only
    rw [hm]
    dsimp only
    rw [if_neg (by simpa [List.isEmpty_iff] using hne)]
    constructor
    · show alookup (aset _ k _) k = _
      rw [alookup_aset]
      simp
    · intro r hr
      show (alookup ((realInts.foldl (fun st r =>
        addOther rcompile matchStr phys st r.name k r) _).interfaces)
        r.name).isSome
      exact foldAddOther_present rcompile matchStr phys k realInts _ r hr
  · intro st' name mid intf h
    exact addOther_adds rcompile matchStr phys st' name mid intf h
  · intro rest
    rw [List.foldl_cons]

/-- Witness for `claim9_zero_match` at a concrete input: one ethernet
declaration resolving to the single NIC `enp1s0`. -/
theorem claim9_zero_match_witness :
    alookup ((ethStep okRC allMS [{ name := "enp1s0" }]
        (fun _ (_ : Unit) =>
          ([], some ({ intf := {}, mtch := { name := "enp1s0" } } : PhyRec Unit)))
        ({} : CState Unit) ("eth0", ())).matchChildren) "eth0" =
      some ["enp1s0"] := by
  have h := ((claim9_zero_match okRC allMS [{ name := "enp1s0" }]
      (fun _ (_ : Unit) =>
        ([], some ({ intf := {}, mtch := { name := "enp1s0" } } : PhyRec Unit)))
      ({} : CState Unit) "eth0" () []
      ({ intf := {}, mtch := { name := "enp1s0" } }) rfl).2.1
      [{ type_ := "physical", matchID := "eth0", name := "enp1s0" }]
      (by decide) rfl).1
  exact h

/-! ## C10 (amended): one insertion per already-recorded parent -/

theorem vlanFold {Net : Type} (i child : Iface Net)
    (hi : i.type_ = "vlan") :
    ∀ (ons : List String) (st : Layout Net) (es : List Emsg) (cur : List String),
      (∀ o ∈ ons, (ifaceZ st.interfaces o).type_ = "vlan") →
      alookup st.child2Parent child.name = some cur →
      List.Sorted SLe cur →
      alookup ((ons.foldl (oStep i child) (st, es)).1.child2Parent) child.name =
        some (ssort (cur ++ List.replicate ons.length i.name)) ∧
      (ons.foldl (oStep i child) (st, es)).2 = es := by
  intro ons
  induction ons with
  | nil =>
    intro st es cur hall hlk hsort
    simp only [List.foldl_nil, List.length_nil, List.replicate_zero,
      List.append_nil]
    rw [ssort_eq_of_sorted hsort]
    exact ⟨hlk, trivial⟩
  | cons o ons ih =>
    intro st es cur hall hlk hsort
    rw [List.foldl_cons]
    have hbb : ¬ (i.type_ = "bridge" ∨ i.type_ = "bond") := by
      rw [hi]; decide
    have hov : (ifaceZ st.interfaces o).type_ = "vlan" :=
      hall o (List.mem_cons_self o ons)
    have hstep : oStep i child (st, es) o =
        ({ st with child2Parent :=
            (aset st.child2Parent child.name (ssort (cur ++ [i.name]))) }, es) := by
      unfold oStep
      dsimp only
      rw [if_neg hbb, if_pos hi, if_neg (by rw [hov]; decide), hlk]
      rfl
    rw [hstep]
    have hres := ih { st with child2Parent :=
        (aset st.child2Parent child.name (ssort (cur ++ [i.name]))) } es
      (ssort (cur ++ [i.name]))
      (fun o ho => hall o (List.mem_cons_of_mem _ ho))
      (by dsimp only; rw [alookup_aset]; simp)
      (ssort_sorted _)
    refine ⟨?_, hres.2⟩
    rw [hres.1]
    congr 1
    rw [ssort_append_left]
    congr 1
    rw [List.append_assoc, List.singleton_append, List.length_cons,
      List.replicate_succ]

/-- **C10** (amended): when a VLAN `i` claims a base `name` that already
has the parents `others` recorded (all of VLAN type, in the
lexicographic order the validator maintains), its name is inserted once
*per already-recorded parent*: the new parent list is the sorted
`others ++ replicate others.length i.name`, and no error is added.  In
particular with two or more recorded parents the new name appears at
least twice (third conjunct), refuting "at most once". -/
theorem claim10_amended {Net : Type} (i child : Iface Net) (name : String)
    (l : Layout Net) (others : List String)
    (hi : i.type_ = "vlan") (hcn : child.name = name)
    (hlk : alookup l.child2Parent name = some others)
    (hsort : List.Sorted SLe others)
    (hall : ∀ o ∈ others, (ifaceZ l.interfaces o).type_ = "vlan") :
    alookup ((ownStep i child name l).1.child2Parent) name =
      some (ssort (others ++ List.replicate others.length i.name)) ∧
    (ownStep i child name l).2 = [] ∧
    (2 ≤ others.length →
      2 ≤ List.count i.name
        (ssort (others ++ List.replicate others.length i.name))) := by
  subst hcn
  unfold ownStep
  rw [hlk]
  dsimp only
  have h := vlanFold i child hi others l [] others hall hlk hsort
  refine ⟨h.1, h.2, ?_⟩
  intro h2
  rw [List.Perm.count_eq (ssort_perm _)]
  rw [List.count_append, List.count_replicate_self]
  omega

/-- Witness for `claim10_amended`: the third stacked vlan `v3` claiming
base `p` with parents `[v1, v2]` already recorded yields the
duplicated list `[v1, v2, v3, v3]`. -/
theorem claim10_amended_witness :
    alookup ((ownStep (mkVlan "v3" ["p"]) (mkPhys "p") "p"
        { interfaces := [("p", mkPhys "p"), ("v1", mkVlan "v1" ["p"]),
            ("v2", mkVlan "v2" ["p"]), ("v3", mkVlan "v3" ["p"])],
          child2Parent := [("p", ["v1", "v2"])] }).1.child2Parent) "p" =
      some (ssort (["v1", "v2"] ++ List.replicate 2 "v3")) := by
  have h := (claim10_amended (mkVlan "v3" ["p"]) (mkPhys "p") "p"
    { interfaces := [("p", mkPhys "p"), ("v1", mkVlan "v1" ["p"]),
        ("v2", mkVlan "v2" ["p"]), ("v3", mkVlan "v3" ["p"])],
      child2Parent := [("p", ["v1", "v2"])] } ["v1", "v2"]
    rfl rfl rfl (by decide) (by decide)).1
  exact h

/-! ## C3: multi-parent children have only vlan parents; bond/bridge
double claims are rejected -/

theorem append_self_nil {α : Type _} {a b : List α} (h : a ++ b = a) : b = [] := by
  have hlen := congrArg List.length h
  rw [List.length_append] at hlen
  have hb : b.length = 0 := by omega
  exact List.eq_nil_of_length_eq_zero hb

theorem oStep_es {Net : Type} (i child : Iface Net)
    (acc : Layout Net × List Emsg) (o : String) :
    ∃ δ, (oStep i child acc o).2 = acc.2 ++ δ := by
  unfold oStep
  dsimp only
  split_ifs <;> first | exact ⟨_, rfl⟩ | exact ⟨[], by simp⟩

theorem oFold_es {Net : Type} (i child : Iface Net) :
    ∀ (ons : List String) (acc : Layout Net × List Emsg),
      ∃ δ, ((ons.foldl (oStep i child) acc).2 = acc.2 ++ δ) := by
  intro ons
  induction ons with
  | nil => intro acc; exact ⟨[], by simp⟩
  | cons o ons ih =>
    intro acc
    rw [List.foldl_cons]
    obtain ⟨δ₁, h₁⟩ := oStep_es i child acc o
    obtain ⟨δ₂, h₂⟩ := ih (oStep i child acc o)
    exact ⟨δ₁ ++ δ₂, by rw [h₂, h₁, List.append_assoc]⟩

theorem oStep_free {Net : Type} (i child : Iface Net) (st : Layout Net)
    (es : List Emsg) (o : String)
    (h : (oStep i child (st, es) o).2 = es) :
    i.type_ = "vlan" ∧ (ifaceZ st.interfaces o).type_ = "vlan" ∧
    oStep i child (st, es) o =
      ({ st with child2Parent := (aset st.child2Parent child.name
          (ssort ((alookup st.child2Parent child.name).getD [] ++ [i.name]))) }, es) := by
  unfold oStep at h ⊢
  dsimp only at h ⊢
  split_ifs at h ⊢ with h1 h2 h3
  · exfalso; have := congrArg List.length h; simp at this
  · exfalso; have := congrArg List.length h; simp at this
  · exact ⟨h2, not_not.mp h3, rfl⟩
  · exfalso; have := congrArg List.length h; simp at this

theorem oFold_checks {Net : Type} (i child : Iface Net) :
    ∀ (ons : List String) (st : Layout Net) (es : List Emsg),
      (ons.foldl (oStep i child) (st, es)).2 = es →
      (ons ≠ [] → i.type_ = "vlan") ∧
      ∀ o ∈ ons, (ifaceZ st.interfaces o).type_ = "vlan" := by
  intro ons
  induction ons with
  | nil =>
    intro st es _
    exact ⟨fun h => absurd rfl h, by simp⟩
  | cons o ons ih =>
    intro st es hfree
    rw [List.foldl_cons] at hfree
    obtain ⟨δ₁, h₁⟩ := oStep_es i child (st, es) o
    obtain ⟨δ₂, h₂⟩ := oFold_es i child ons (oStep i child (st, es) o)
    rw [h₂, h₁] at hfree
    have h3 : es ++ (δ₁ ++ δ₂) = es := by rw [← List.append_assoc]; exact hfree
    have h4 := List.append_eq_nil.mp (append_self_nil h3)
    have hhead : (oStep i child (st, es) o).2 = es := by
      rw [h₁, h4.1, List.append_nil]
    obtain ⟨hvi, hvo, hstep⟩ := oStep_free i child st es o hhead
    have htail : (ons.foldl (oStep i child)
        ({ st with child2Parent := (aset st.child2Parent child.name
          (ssort ((alookup st.child2Parent child.name).getD [] ++ [i.name]))) }, es)).2
        = es := by
      rw [← hstep, h₂, h₁, h4.1, h4.2]
      simp
    have hih := ih _ es htail
    refine ⟨fun _ => hvi, fun x hx => ?_⟩
    rcases List.mem_cons.mp hx with hx | hx
    · rw [hx]; exact hvo
    · exact hih.2 x hx

theorem oStep_c2p_other {Net : Type} (i child : Iface Net)
    (acc : Layout Net × List Emsg) (o c : String) (hc : c ≠ child.name) :
    alookup ((oStep i child acc o).1.child2Parent) c =
      alookup acc.1.child2Parent c := by
  unfold oStep
  dsimp only
  split_ifs <;> try rfl
  rw [alookup_aset, if_neg (fun h => hc h.symm)]

theorem oFold_c2p_other {Net : Type} (i child : Iface Net)
    (ons : List String) (acc : Layout Net × List Emsg) (c : String)
    (hc : c ≠ child.name) :
    alookup ((ons.foldl (oStep i child) acc).1.child2Parent) c =
      alookup acc.1.child2Parent c := by
  apply @foldlInv (Layout Net × List Emsg) String
    (fun s => alookup s.1.child2Parent c = alookup acc.1.child2Parent c)
    (oStep i child)
    (fun s b hs => (oStep_c2p_other i child s b c hc).trans hs)
  rfl

theorem relMaps_refl {Net : Type} (m : List (String × Iface Net)) :
    relMaps m m := ⟨fun _ => rfl, fun _ => rfl⟩

theorem rel_lookup {Net : Type} {orig cur : List (String × Iface Net)}
    (hrel : relMaps orig cur) {k : String} {v : Iface Net}
    (h : alookup cur k = some v) :
    ∃ w, alookup orig k = some w ∧ w.type_ = v.type_ ∧ w.name = v.name ∧
      ssort w.interfaces = ssort v.interfaces := by
  have h1 := hrel.1 k
  have h2 := hrel.2 k
  unfold viewTN at h1
  unfold memView at h2
  rw [h] at h1 h2
  cases hw : alookup orig k with
  | none => rw [hw] at h1; simp at h1
  | some w =>
    rw [hw] at h1 h2
    simp only [Option.map_some'] at h1 h2
    have h1' := Option.some.inj h1
    have h2' := Option.some.inj h2
    exact ⟨w, rfl, (congrArg Prod.fst h1').symm, (congrArg Prod.snd h1').symm,
      h2'.symm⟩

theorem rel_isSome {Net : Type} {orig cur : List (String × Iface Net)}
    (hrel : relMaps orig cur) (k : String) :
    (alookup cur k).isSome = (alookup orig k).isSome := by
  have h1 := hrel.1 k
  unfold viewTN at h1
  cases h2 : alookup orig k <;> cases h3 : alookup cur k <;>
    rw [h2, h3] at h1 <;> simp at h1 ⊢

theorem rel_typeZ {Net : Type} {orig cur : List (String × Iface Net)}
    (hrel : relMaps orig cur) (o : String)
    (h : (ifaceZ cur o).type_ = "vlan") : (ifaceZ orig o).type_ = "vlan" := by
  unfold ifaceZ at h ⊢
  cases hc : alookup cur o with
  | none =>
    rw [hc] at h
    simp only [Option.getD_none] at h
    exact absurd h (by decide)
  | some w =>
    rw [hc] at h
    obtain ⟨wo, hwo, ht, _, _⟩ := rel_lookup hrel hc
    rw [hwo]
    exact ht.trans h

theorem keyed_lookup {Net : Type} {m : List (String × Iface Net)}
    (hk : keyedByName m) {k : String} {v : Iface Net}
    (h : alookup m k = some v) : v.name = k :=
  hk (k, v) (alookup_mem _ _ _ h)

theorem rel_keyed_lookup {Net : Type} {orig cur : List (String × Iface Net)}
    (hk : keyedByName orig) (hrel : relMaps orig cur) {k : String}
    {v : Iface Net} (h : alookup cur k = some v) : v.name = k := by
  obtain ⟨w, hw, _, hn, _⟩ := rel_lookup hrel h
  rw [← hn]
  exact keyed_lookup hk hw

theorem ownStep_c3 {Net : Type} (orig : List (String × Iface Net))
    (i child : Iface Net) (name : String) (l : Layout Net)
    (hiv : i.type_ = "vlan" → (ifaceZ orig i.name).type_ = "vlan")
    (hcn : child.name = name)
    (hrel : relMaps orig l.interfaces) (hsort : allC2PSorted l)
    (hlight : c2pLight l.child2Parent)
    (hvp : vlanParents orig l.child2Parent)
    (hfree : (ownStep i child name l).2 = []) :
    c3Inv orig (ownStep i child name l).1 := by
  subst hcn
  have hshape := ownStep_shape i child child.name l
  refine ⟨?_, ownStep_c2pSorted i child child.name l hsort, ?_⟩
  · rw [hshape.1]; exact hrel
  cases hl : alookup l.child2Parent child.name with
  | none =>
    have hres : ownStep i child child.name l =
        ({ l with child2Parent := (aset l.child2Parent child.name [i.name]) }, []) := by
      unfold ownStep; rw [hl]
    rw [hres]
    dsimp only
    constructor
    · intro c ps h
      rw [alookup_aset] at h
      by_cases hcc : child.name = c
      · rw [if_pos hcc] at h
        cases h
        simp
      · rw [if_neg hcc] at h
        exact hlight c ps h
    · intro c ps h hlen p hp
      rw [alookup_aset] at h
      by_cases hcc : child.name = c
      · rw [if_pos hcc] at h
        cases h
        simp at hlen
      · rw [if_neg hcc] at h
        exact hvp c ps h hlen p hp
  | some others =>
    have hemp : others ≠ [] := hlight child.name others hl
    have hfree' : ((others.foldl (oStep i child) (l, [])).2 = ([] : List Emsg)) := by
      unfold ownStep at hfree; rw [hl] at hfree; exact hfree
    have hchecks := oFold_checks i child others l [] hfree'
    have hvlan : i.type_ = "vlan" := hchecks.1 hemp
    have hallv : ∀ o ∈ others, (ifaceZ l.interfaces o).type_ = "vlan" :=
      hchecks.2
    have hsorted_o : List.Sorted SLe others :=
      hsort (child.name, others) (alookup_mem _ _ _ hl)
    have hvf := vlanFold i child hvlan others l [] others hallv hl hsorted_o
    have hres_at : alookup ((ownStep i child child.name l).1.child2Parent)
        child.name =
        some (ssort (others ++ List.replicate others.length i.name)) := by
      unfold ownStep; rw [hl]; exact hvf.1
    have hres_other : ∀ c, c ≠ child.name →
        alookup ((ownStep i child child.name l).1.child2Parent) c =
          alookup l.child2Parent c := by
      intro c hc
      unfold ownStep; rw [hl]
      exact oFold_c2p_other i child others (l, []) c hc
    constructor
    · intro c ps h
      by_cases hcc : c = child.name
      · subst hcc
        rw [hres_at] at h
        cases h
        intro hnil
        have := (ssort_perm (others ++ List.replicate others.length i.name)).length_eq
        rw [hnil] at this
        simp at this
        have hz : others.length = 0 := by omega
        exact hemp (List.eq_nil_of_length_eq_zero hz)
      · rw [hres_other c hcc] at h
        exact hlight c ps h
    · intro c ps h hlen p hp
      by_cases hcc : c = child.name
      · subst hcc
        rw [hres_at] at h
        cases h
        rcases List.mem_append.mp (mem_ssort.mp hp) with hm | hm
        · exact rel_typeZ hrel p (hallv p hm)
        · rw [List.eq_of_mem_replicate hm]
          exact hiv hvlan
      · rw [hres_other c hcc] at h
        exact hvp c ps h hlen p hp

theorem memberStep_c3 {Net : Type} (orig : List (String × Iface Net))
    (i : Iface Net) (l : Layout Net) (name : String)
    (hkeyO : keyedByName orig)
    (hiv : i.type_ = "vlan" → (ifaceZ orig i.name).type_ = "vlan")
    (hinv : c3Inv orig l)
    (hfree : (memberStep i l name).2 = []) :
    c3Inv orig (memberStep i l name).1 := by
  obtain ⟨hrel, hsort, hlight, hvp⟩ := hinv
  unfold memberStep at hfree ⊢
  cases hc : alookup l.interfaces name with
  | none =>
    rw [hc] at hfree
    simp at hfree
  | some child =>
    rw [hc] at hfree
    have hcn : child.name = name := rel_keyed_lookup hkeyO hrel hc
    dsimp only at hfree ⊢
    split_ifs at hfree ⊢ <;>
      first
      | (exact absurd hfree (by simp))
      | (exact ownStep_c3 orig i child name l hiv hcn hrel hsort hlight hvp hfree)

theorem mStep_es {Net : Type} (i : Iface Net) (acc : Layout Net × List Emsg)
    (name : String) :
    (mStep i acc name).2 = acc.2 ++ (memberStep i acc.1 name).2 := rfl

theorem mFold_es {Net : Type} (i : Iface Net) :
    ∀ (names : List String) (acc : Layout Net × List Emsg),
      ∃ δ, ((names.foldl (mStep i) acc).2 = acc.2 ++ δ) := by
  intro names
  induction names with
  | nil => intro acc; exact ⟨[], by simp⟩
  | cons n ns ih =>
    intro acc
    rw [List.foldl_cons]
    obtain ⟨δ₂, h₂⟩ := ih (mStep i acc n)
    exact ⟨(memberStep i acc.1 n).2 ++ δ₂,
      by rw [h₂, mStep_es, List.append_assoc]⟩

theorem mFold_c3 {Net : Type} (orig : List (String × Iface Net))
    (i : Iface Net) (hkeyO : keyedByName orig)
    (hiv : i.type_ = "vlan" → (ifaceZ orig i.name).type_ = "vlan") :
    ∀ (names : List String) (acc : Layout Net × List Emsg),
      (names.foldl (mStep i) acc).2 = acc.2 →
      c3Inv orig acc.1 → c3Inv orig (names.foldl (mStep i) acc).1 := by
  intro names
  induction names with
  | nil => intro acc _ h; exact h
  | cons n ns ih =>
    intro acc hfree hinv
    rw [List.foldl_cons] at hfree ⊢
    obtain ⟨δ₂, h₂⟩ := mFold_es i ns (mStep i acc n)
    rw [h₂, mStep_es] at hfree
    have h3 : acc.2 ++ ((memberStep i acc.1 n).2 ++ δ₂) = acc.2 := by
      rw [← List.append_assoc]; exact hfree
    have h4 := List.append_eq_nil.mp (append_self_nil h3)
    have hstep := memberStep_c3 orig i acc.1 n hkeyO hiv hinv h4.1
    apply ih
    · rw [h₂, h4.2, List.append_nil]
    · exact hstep

theorem ssort_idem (l : List String) : ssort (ssort l) = ssort l :=
  ssort_eq_of_sorted (ssort_sorted l)

theorem mFoldFree_c3 {Net : Type} (orig : List (String × Iface Net))
    (i : Iface Net) (hkeyO : keyedByName orig)
    (hiv : i.type_ = "vlan" → (ifaceZ orig i.name).type_ = "vlan")
    (names : List String) (acc : Layout Net × List Emsg)
    (hfree : (names.foldl (mStep i) acc).2 = [])
    (hinv : c3Inv orig acc.1) :
    c3Inv orig (names.foldl (mStep i) acc).1 := by
  obtain ⟨δ, hδ⟩ := mFold_es i names acc
  apply mFold_c3 orig i hkeyO hiv names acc ?_ hinv
  rw [hfree]
  rw [hδ] at hfree
  exact ((List.append_eq_nil.mp hfree).1).symm

theorem ifaceValidate_c3 {Net : Type} (netValidate : Net → List String)
    (orig : List (String × Iface Net)) (l : Layout Net) (k : String)
    (hkeyO : keyedByName orig)
    (hk : (alookup l.interfaces k).isSome)
    (hinv : c3Inv orig l)
    (hfree : (ifaceValidate netValidate l k).2 = []) :
    c3Inv orig (ifaceValidate netValidate l k).1 := by
  obtain ⟨hrel, hsort, hlight, hvp⟩ := hinv
  obtain ⟨v, hv⟩ := Option.isSome_iff_exists.mp hk
  unfold ifaceValidate at hfree ⊢
  dsimp only at hfree ⊢
  by_cases hp : (ifaceZ l.interfaces k).type_ = "physical"
  · rw [if_pos hp] at hfree ⊢
    exact ⟨hrel, hsort, hlight, hvp⟩
  · rw [if_neg hp] at hfree ⊢
    have hieq : ifaceZ l.interfaces k = v := by
      unfold ifaceZ; rw [hv]; rfl
    have hkn : v.name = k := rel_keyed_lookup hkeyO hrel hv
    have hiv : (ifaceZ l.interfaces k).type_ = "vlan" →
        (ifaceZ orig (ifaceZ l.interfaces k).name).type_ = "vlan" := by
      intro hvl
      rw [hieq] at hvl ⊢
      rw [hkn]
      obtain ⟨w, hw, hwt, hwn, _⟩ := rel_lookup hrel hv
      unfold ifaceZ
      rw [hw]
      calc ((some w).getD {}).type_ = w.type_ := rfl
        _ = v.type_ := hwt
        _ = "vlan" := hvl
    apply mFoldFree_c3 orig (ifaceZ l.interfaces k) hkeyO hiv _ _ hfree
    refine ⟨⟨fun x => ?_, fun x => ?_⟩, hsort, hlight, hvp⟩
    · dsimp only
      unfold viewTN
      rw [alookup_aset]
      by_cases hx : k = x
      · subst hx
        rw [if_pos rfl]
        have h0 := hrel.1 k
        unfold viewTN at h0
        rw [hv] at h0
        rw [← h0, hieq]
        rfl
      · rw [if_neg hx]
        have h0 := hrel.1 x
        unfold viewTN at h0
        exact h0
    · dsimp only
      unfold memView
      rw [alookup_aset]
      by_cases hx : k = x
      · subst hx
        rw [if_pos rfl]
        have h0 := hrel.2 k
        unfold memView at h0
        rw [hv] at h0
        rw [← h0, hieq]
        simp only [Option.map_some']
        rw [ssort_idem]
      · rw [if_neg hx]
        have h0 := hrel.2 x
        unfold memView at h0
        exact h0

theorem p1Step_es {Net : Type} (netValidate : Net → List String)
    (acc : Layout Net × List Emsg) (k : String) :
    (p1Step netValidate acc k).2 = acc.2 ++ (ifaceValidate netValidate acc.1 k).2 :=
  rfl

theorem p1Fold_es {Net : Type} (netValidate : Net → List String) :
    ∀ (ks : List String) (acc : Layout Net × List Emsg),
      ∃ δ, ((ks.foldl (p1Step netValidate) acc).2 = acc.2 ++ δ) := by
  intro ks
  induction ks with
  | nil => intro acc; exact ⟨[], by simp⟩
  | cons k ks ih =>
    intro acc
    rw [List.foldl_cons]
    obtain ⟨δ₂, h₂⟩ := ih (p1Step netValidate acc k)
    exact ⟨(ifaceValidate netValidate acc.1 k).2 ++ δ₂,
      by rw [h₂, p1Step_es, List.append_assoc]⟩

theorem p1Fold_c3 {Net : Type} (netValidate : Net → List String)
    (orig : List (String × Iface Net)) (hkeyO : keyedByName orig) :
    ∀ (ks : List String) (acc : Layout Net × List Emsg),
      (∀ x ∈ ks, (alookup orig x).isSome) →
      (ks.foldl (p1Step netValidate) acc).2 = acc.2 →
      c3Inv orig acc.1 →
      c3Inv orig (ks.foldl (p1Step netValidate) acc).1 := by
  intro ks
  induction ks with
  | nil => intro acc _ _ h; exact h
  | cons k ks ih =>
    intro acc hks hfree hinv
    rw [List.foldl_cons] at hfree ⊢
    obtain ⟨δ₂, h₂⟩ := p1Fold_es netValidate ks (p1Step netValidate acc k)
    rw [h₂, p1Step_es] at hfree
    have h3 : acc.2 ++ ((ifaceValidate netValidate acc.1 k).2 ++ δ₂) = acc.2 := by
      rw [← List.append_assoc]; exact hfree
    have h4 := List.append_eq_nil.mp (append_self_nil h3)
    have hk' : (alookup acc.1.interfaces k).isSome := by
      rw [rel_isSome hinv.1 k]
      exact hks k (List.mem_cons_self k ks)
    have hstep := ifaceValidate_c3 netValidate orig acc.1 k hkeyO hk' hinv h4.1
    apply ih
    · intro x hx; exact hks x (List.mem_cons_of_mem _ hx)
    · rw [h₂, h4.2, List.append_nil]
    · exact hstep

theorem phase1_free {Net : Type} (netValidate : Net → List String)
    (l : Layout Net) (hok : (layoutValidate netValidate l).2 = []) :
    (phase1 netValidate l).2 = [] := by
  unfold layoutValidate at hok
  dsimp only at hok
  split_ifs at hok with h
  · exact hok
  · exact not_not.mp h

theorem layoutValidate_c2p {Net : Type} (netValidate : Net → List String)
    (l : Layout Net) :
    (layoutValidate netValidate l).1.child2Parent =
      (phase1 netValidate l).1.child2Parent := by
  unfold layoutValidate
  dsimp only
  split_ifs
  · rfl
  · show ((ssort (akeys l.interfaces)).foldl stripStep (phase1 netValidate l).1).child2Parent = _
    exact @foldlInv (Layout Net) String
      (fun s => s.child2Parent = (phase1 netValidate l).1.child2Parent)
      stripStep
      (fun s b hs => ((stripStep_c2p_roots s b).1).trans hs)
      (ssort (akeys l.interfaces)) (phase1 netValidate l).1 rfl

theorem phase1_c3 {Net : Type} (netValidate : Net → List String)
    (l : Layout Net) (hkey : keyedByName l.interfaces)
    (hfree : (phase1 netValidate l).2 = []) :
    c3Inv l.interfaces (phase1 netValidate l).1 := by
  unfold phase1 at hfree ⊢
  apply p1Fold_c3 netValidate l.interfaces hkey _ _ _ hfree
  · refine ⟨relMaps_refl _, ?_, ?_, ?_⟩
    · intro p hp; simp at hp
    · intro c ps h; simp [alookup] at h
    · intro c ps h; simp [alookup] at h
  · intro x hx
    exact alookup_isSome_of_mem_akeys _ x (mem_ssort.mp hx)

/-- **C3**: for every graph keyed by node name that `Layout.Validate`
accepts without error, every child with more than one parent recorded in
`childToParents` has only parents whose node is of vlan kind (first
conjunct); and whenever a bridge or bond claims a member that already
has recorded parents, `Interface.validate`'s ownership step rejects it
with an `already claimed` error naming the previous owner (second
conjunct). -/
theorem claim3_vlan_parents {Net : Type} (netValidate : Net → List String)
    (l : Layout Net) (hkey : keyedByName l.interfaces)
    (hok : (layoutValidate netValidate l).2 = []) :
    (∀ c ps, alookup ((layoutValidate netValidate l).1.child2Parent) c = some ps →
        1 < ps.length → ∀ p ∈ ps, (ifaceZ l.interfaces p).type_ = "vlan") ∧
    (∀ (i child : Iface Net) (st : Layout Net) (name o : String)
        (os : List String),
      (i.type_ = "bond" ∨ i.type_ = "bridge") →
      alookup st.child2Parent name = some (o :: os) →
      ∃ rest, (ownStep i child name st).2 =
        Emsg.alreadyOwned child.type_ child.name
          (ifaceZ st.interfaces o).type_ (ifaceZ st.interfaces o).name
          i.type_ i.name :: rest) := by
  constructor
  · have hinv := phase1_c3 netValidate l hkey (phase1_free netValidate l hok)
    intro c ps h hlen p hp
    rw [layoutValidate_c2p] at h
    exact hinv.2.2.2 c ps h hlen p hp
  · intro i child st name o os hbb hlk
    have hbb' : i.type_ = "bridge" ∨ i.type_ = "bond" := hbb.symm
    unfold ownStep
    rw [hlk]
    dsimp only
    rw [List.foldl_cons]
    have hstep : oStep i child (st, []) o =
        (st, [Emsg.alreadyOwned child.type_ child.name
          (ifaceZ st.interfaces o).type_ (ifaceZ st.interfaces o).name
          i.type_ i.name]) := by
      unfold oStep
      dsimp only
      rw [if_pos hbb']
      rfl
    rw [hstep]
    obtain ⟨δ, hδ⟩ := oFold_es i child os
      (st, [Emsg.alreadyOwned child.type_ child.name
        (ifaceZ st.interfaces o).type_ (ifaceZ st.interfaces o).name
        i.type_ i.name])
    exact ⟨δ, hδ⟩

/-- Witness for `claim3_vlan_parents`: the stacked-vlan graph
`c3vLayout` validates without error, is keyed by name, and its node `p`
ends up with the two parents `v1`, `v2`, both of vlan kind; and in
`c3bLayout`, where bridge `b0` already owns `m`, bridge `b1`'s claim is
rejected with the `already claimed` error. -/
theorem claim3_vlan_parents_witness :
    keyedByName c3vLayout.interfaces ∧
    (layoutValidate unitNet c3vLayout).2 = [] ∧
    alookup ((layoutValidate unitNet c3vLayout).1.child2Parent) "p" =
      some ["v1", "v2"] ∧
    (ifaceZ c3vLayout.interfaces "v1").type_ = "vlan" ∧
    (∃ rest, (ownStep (mkBridge "b1" ["m"]) (mkPhys "m") "m" c3bLayout).2 =
      Emsg.alreadyOwned "physical" "m" "bridge" "b0" "bridge" "b1" :: rest) := by
  refine ⟨by decide, by decide, by decide, ?_, ?_⟩
  · exact (claim3_vlan_parents unitNet c3vLayout (by decide) (by decide)).1
      "p" ["v1", "v2"] (by decide) (by decide) "v1" (by decide)
  · exact (claim3_vlan_parents unitNet c3vLayout (by decide) (by decide)).2
      (mkBridge "b1" ["m"]) (mkPhys "m") c3bLayout "m" "b0" []
      (Or.inr rfl) (by decide)

/-! ## C1 (amended): re-validating an already-valid graph -/

theorem mem_akeys_of_isSome {α : Type _} (m : List (String × α)) (k : String)
    (h : (alookup m k).isSome) : k ∈ akeys m := by
  obtain ⟨v, hv⟩ := Option.isSome_iff_exists.mp h
  have := alookup_mem _ _ _ hv
  unfold akeys
  exact List.mem_map.mpr ⟨(k, v), this, rfl⟩

theorem viewTN_isSome {Net : Type} {m₁ m₂ : List (String × Iface Net)}
    {k : String} (h : viewTN m₁ k = viewTN m₂ k) :
    (alookup m₁ k).isSome = (alookup m₂ k).isSome := by
  unfold viewTN at h
  cases h1 : alookup m₁ k <;> cases h2 : alookup m₂ k <;>
    rw [h1, h2] at h <;> simp at h ⊢

theorem viewTN_typeZ {Net : Type} {m₁ m₂ : List (String × Iface Net)}
    {k : String} (h : viewTN m₁ k = viewTN m₂ k) :
    (ifaceZ m₁ k).type_ = (ifaceZ m₂ k).type_ ∧
    (ifaceZ m₁ k).name = (ifaceZ m₂ k).name := by
  unfold viewTN at h
  unfold ifaceZ
  cases h1 : alookup m₁ k <;> cases h2 : alookup m₂ k <;>
    rw [h1, h2] at h <;> simp at h ⊢
  exact h

theorem memView_sortZ {Net : Type} {m₁ m₂ : List (String × Iface Net)}
    {k : String} (h : memView m₁ k = memView m₂ k) :
    ssort (ifaceZ m₁ k).interfaces = ssort (ifaceZ m₂ k).interfaces := by
  unfold memView at h
  unfold ifaceZ
  cases h1 : alookup m₁ k <;> cases h2 : alookup m₂ k <;>
    rw [h1, h2] at h <;> simp at h ⊢
  exact h

theorem phase1_roots {Net : Type} (netValidate : Net → List String)
    (l : Layout Net) : (phase1 netValidate l).1.roots = l.roots := by
  unfold phase1
  exact @foldlInv (Layout Net × List Emsg) String
    (fun acc => acc.1.roots = l.roots) (p1Step netValidate)
    (fun s b hs => by
      unfold p1Step
      exact (ifaceValidate_roots netValidate s.1 b).trans hs)
    (ssort (akeys l.interfaces))
    ({ l with child2Parent := ([] : List (String × List String)) }, []) rfl

theorem rcFold_roots (c2p : List (String × List String)) (fuel : Nat) :
    ∀ (ks : List String) (rs cl : List String) (es : List Emsg),
      (ks.foldl (rcStep c2p fuel) (rs, cl, es)).1 =
        rs ++ ks.filter (fun k => (alookup c2p k).isNone) := by
  intro ks
  induction ks with
  | nil => intro rs cl es; simp
  | cons k ks ih =>
    intro rs cl es
    rw [List.foldl_cons]
    have hstep : rcStep c2p fuel (rs, cl, es) k =
        ((if alookup c2p k = none then rs ++ [k] else rs),
         (cyclic c2p fuel k [] cl es).1, (cyclic c2p fuel k [] cl es).2) := rfl
    rw [hstep]
    by_cases hk : alookup c2p k = none
    · rw [if_pos hk, ih]
      have hb : (alookup c2p k).isNone = true := Option.isNone_iff_eq_none.mpr hk
      simp [List.filter_cons, hb]
    · rw [if_neg hk, ih]
      have hb : ¬((alookup c2p k).isNone = true) := by
        rw [Option.isNone_iff_eq_none]; exact hk
      simp [List.filter_cons, hb]

theorem rcFold_snd (c2p : List (String × List String)) (fuel : Nat) :
    ∀ (ks : List String) (rs rs' cl : List String) (es : List Emsg),
      (ks.foldl (rcStep c2p fuel) (rs, cl, es)).2 =
        (ks.foldl (rcStep c2p fuel) (rs', cl, es)).2 := by
  intro ks
  induction ks with
  | nil => intro rs rs' cl es; rfl
  | cons k ks ih =>
    intro rs rs' cl es
    rw [List.foldl_cons, List.foldl_cons]
    have h1 : rcStep c2p fuel (rs, cl, es) k =
        ((if alookup c2p k = none then rs ++ [k] else rs),
         (cyclic c2p fuel k [] cl es).1, (cyclic c2p fuel k [] cl es).2) := rfl
    have h2 : rcStep c2p fuel (rs', cl, es) k =
        ((if alookup c2p k = none then rs' ++ [k] else rs'),
         (cyclic c2p fuel k [] cl es).1, (cyclic c2p fuel k [] cl es).2) := rfl
    rw [h1, h2]
    exact ih _ _ _ _

theorem ifaceValidate_intf {Net : Type} (netValidate : Net → List String)
    (l : Layout Net) (k : String) :
    (ifaceValidate netValidate l k).1.interfaces = l.interfaces ∨
    (ifaceValidate netValidate l k).1.interfaces =
      aset l.interfaces k { ifaceZ l.interfaces k with
        interfaces := (ssort (ifaceZ l.interfaces k).interfaces) } := by
  unfold ifaceValidate
  dsimp only
  by_cases hp : (ifaceZ l.interfaces k).type_ = "physical"
  · rw [if_pos hp]; left; rfl
  · rw [if_neg hp]
    right
    exact @foldlInv (Layout Net × List Emsg) String
      (fun acc => acc.1.interfaces =
        aset l.interfaces k { ifaceZ l.interfaces k with
          interfaces := (ssort (ifaceZ l.interfaces k).interfaces) })
      (mStep (ifaceZ l.interfaces k))
      (fun s b hs => by
        unfold mStep
        exact (memberStep_shape _ s.1 b).1.trans hs)
      (ssort (ifaceZ l.interfaces k).interfaces) _ rfl

theorem ifaceValidate_akeys {Net : Type} (netValidate : Net → List String)
    (l : Layout Net) (k : String) (hk : (alookup l.interfaces k).isSome) :
    akeys (ifaceValidate netValidate l k).1.interfaces = akeys l.interfaces := by
  rcases ifaceValidate_intf netValidate l k with h | h
  · rw [h]
  · rw [h, akeys_aset]
    have hnn : ¬((alookup l.interfaces k).isNone = true) := by
      cases hx : alookup l.interfaces k
      · rw [hx] at hk; simp at hk
      · simp
    rw [if_neg hnn]

theorem ifaceValidate_netView {Net : Type} (netValidate : Net → List String)
    (l : Layout Net) (k : String) (hk : (alookup l.interfaces k).isSome) :
    ∀ x, netView (ifaceValidate netValidate l k).1.interfaces x =
      netView l.interfaces x := by
  intro x
  obtain ⟨v, hv⟩ := Option.isSome_iff_exists.mp hk
  rcases ifaceValidate_intf netValidate l k with h | h
  · rw [h]
  · rw [h]
    unfold netView
    rw [alookup_aset]
    by_cases hx : k = x
    · subst hx
      rw [if_pos rfl, hv]
      unfold ifaceZ
      rw [hv]
      simp
    · rw [if_neg hx]

theorem ifaceValidate_netOKmap {Net : Type} (netValidate : Net → List String)
    (l : Layout Net) (k : String)
    (h : netOKmap netValidate l.interfaces) :
    netOKmap netValidate (ifaceValidate netValidate l k).1.interfaces := by
  rcases ifaceValidate_intf netValidate l k with he | he <;> rw [he]
  · exact h
  · intro x v hv hp
    rw [alookup_aset] at hv
    by_cases hx : k = x
    · rw [if_pos hx] at hv
      cases hv
      show netOK netValidate (ifaceZ l.interfaces k).network
      unfold ifaceZ
      cases hz : alookup l.interfaces k with
      | none => intro n hn; simp at hn
      | some w =>
        have := h k w hz
        simp only [Option.getD_some]
        apply this
        have : ({ ifaceZ l.interfaces k with
            interfaces := (ssort (ifaceZ l.interfaces k).interfaces) }).type_ =
            (ifaceZ l.interfaces k).type_ := rfl
        rw [this] at hp
        unfold ifaceZ at hp
        rw [hz] at hp
        exact hp
    · rw [if_neg hx] at hv
      exact h x v hv hp

theorem mFoldFree_split {Net : Type} (i : Iface Net) (names : List String)
    (acc : Layout Net × List Emsg)
    (hfree : (names.foldl (mStep i) acc).2 = []) :
    acc.2 = [] ∧ (names.foldl (mStep i) acc).2 = acc.2 := by
  obtain ⟨δ, hδ⟩ := mFold_es i names acc
  rw [hδ] at hfree
  obtain ⟨h1, h2⟩ := List.append_eq_nil.mp hfree
  exact ⟨h1, by rw [hδ, h2, List.append_nil]⟩

theorem mFold_defined {Net : Type} (i : Iface Net) :
    ∀ (names : List String) (acc : Layout Net × List Emsg),
      (names.foldl (mStep i) acc).2 = acc.2 →
      ∀ m ∈ names, (alookup acc.1.interfaces m).isSome := by
  intro names
  induction names with
  | nil => intro acc _ m hm; simp at hm
  | cons n ns ih =>
    intro acc hfree m hm
    rw [List.foldl_cons] at hfree
    obtain ⟨δ₂, h₂⟩ := mFold_es i ns (mStep i acc n)
    rw [h₂, mStep_es] at hfree
    have h3 : acc.2 ++ ((memberStep i acc.1 n).2 ++ δ₂) = acc.2 := by
      rw [← List.append_assoc]; exact hfree
    have h4 := List.append_eq_nil.mp (append_self_nil h3)
    rcases List.mem_cons.mp hm with hm | hm
    · subst hm
      have hms := h4.1
      unfold memberStep at hms
      cases hc : alookup acc.1.interfaces m with
      | none => rw [hc] at hms; simp at hms
      | some child => rfl
    · have htail : (ns.foldl (mStep i) (mStep i acc n)).2 = (mStep i acc n).2 := by
        rw [h₂, h4.2, List.append_nil]
      have := ih (mStep i acc n) htail m hm
      have hintf : (mStep i acc n).1.interfaces = acc.1.interfaces :=
        (memberStep_shape i acc.1 n).1
      rw [hintf] at this
      exact this

theorem ifaceValidate_facts {Net : Type} (netValidate : Net → List String)
    (orig : List (String × Iface Net)) (st : Layout Net) (k : String)
    (hk : (alookup st.interfaces k).isSome)
    (hrel : relMaps orig st.interfaces)
    (hnv : netViewRel orig st.interfaces)
    (hfree : (ifaceValidate netValidate st k).2 = []) :
    nodeFacts netValidate orig k := by
  intro hpO
  obtain ⟨v, hv⟩ := Option.isSome_iff_exists.mp hk
  have hieq : ifaceZ st.interfaces k = v := by unfold ifaceZ; rw [hv]; rfl
  obtain ⟨w, hw, hwt, hwn, hwm⟩ := rel_lookup hrel hv
  have hworig : ifaceZ orig k = w := by unfold ifaceZ; rw [hw]; rfl
  rw [hworig] at hpO
  have hpS : ¬((ifaceZ st.interfaces k).type_ = "physical") := by
    rw [hieq, ← hwt]; exact hpO
  have hvw : v.network = w.network := by
    have hnvk := hnv k
    unfold netView at hnvk
    rw [hv, hw] at hnvk
    simp only [Option.map_some'] at hnvk
    exact Option.some.inj hnvk
  unfold ifaceValidate at hfree
  dsimp only at hfree
  rw [if_neg hpS] at hfree
  have hsplit := mFoldFree_split _ _ _ hfree
  rw [hworig]
  constructor
  · intro n hn
    have hvn : v.network = some n := by rw [hvw]; exact hn
    have hne := hsplit.1
    rw [hieq, hvn] at hne
    exact List.map_eq_nil_iff.mp hne
  · intro m hm
    have hdef := mFold_defined _ _ _ hsplit.2
    have hmem : m ∈ ssort (ifaceZ st.interfaces k).interfaces := by
      rw [hieq, ← hwm]
      exact mem_ssort.mpr hm
    have hsome := hdef m hmem
    dsimp only at hsome
    rw [alookup_aset] at hsome
    by_cases hkm : k = m
    · rw [← hkm, hw]; rfl
    · rw [if_neg hkm] at hsome
      rw [← rel_isSome hrel m]
      exact hsome

theorem p1Fold_facts {Net : Type} (netValidate : Net → List String)
    (orig : List (String × Iface Net)) (hkeyO : keyedByName orig) :
    ∀ (ks : List String) (acc : Layout Net × List Emsg),
      (∀ x ∈ ks, (alookup orig x).isSome) →
      (ks.foldl (p1Step netValidate) acc).2 = acc.2 →
      c3Inv orig acc.1 → netViewRel orig acc.1.interfaces →
      akeys acc.1.interfaces = akeys orig →
      (c3Inv orig (ks.foldl (p1Step netValidate) acc).1 ∧
       netViewRel orig (ks.foldl (p1Step netValidate) acc).1.interfaces ∧
       akeys (ks.foldl (p1Step netValidate) acc).1.interfaces = akeys orig) ∧
      ∀ k ∈ ks, nodeFacts netValidate orig k := by
  intro ks
  induction ks with
  | nil =>
    intro acc _ _ h1 h2 h3
    exact ⟨⟨h1, h2, h3⟩, by simp⟩
  | cons k ks ih =>
    intro acc hks hfree hinv hnv hak
    rw [List.foldl_cons] at hfree ⊢
    obtain ⟨δ₂, h₂⟩ := p1Fold_es netValidate ks (p1Step netValidate acc k)
    rw [h₂, p1Step_es] at hfree
    have h3 : acc.2 ++ ((ifaceValidate netValidate acc.1 k).2 ++ δ₂) = acc.2 := by
      rw [← List.append_assoc]; exact hfree
    have h4 := List.append_eq_nil.mp (append_self_nil h3)
    have hkS : (alookup acc.1.interfaces k).isSome := by
      rw [rel_isSome hinv.1 k]
      exact hks k (List.mem_cons_self k ks)
    have hfact := ifaceValidate_facts netValidate orig acc.1 k hkS hinv.1 hnv h4.1
    have hinv' := ifaceValidate_c3 netValidate orig acc.1 k hkeyO hkS hinv h4.1
    have hnv' : netViewRel orig (p1Step netValidate acc k).1.interfaces :=
      fun x => (ifaceValidate_netView netValidate acc.1 k hkS x).trans (hnv x)
    have hak' : akeys (p1Step netValidate acc k).1.interfaces = akeys orig :=
      (ifaceValidate_akeys netValidate acc.1 k hkS).trans hak
    have htail : (ks.foldl (p1Step netValidate) (p1Step netValidate acc k)).2 =
        (p1Step netValidate acc k).2 := by
      rw [h₂, h4.2, List.append_nil]
    have hih := ih (p1Step netValidate acc k)
      (fun x hx => hks x (List.mem_cons_of_mem _ hx)) htail hinv' hnv' hak'
    refine ⟨hih.1, fun x hx => ?_⟩
    rcases List.mem_cons.mp hx with hx | hx
    · subst hx; exact hfact
    · exact hih.2 x hx

theorem netOKmap_of_facts {Net : Type} (netValidate : Net → List String)
    (orig m : List (String × Iface Net))
    (hrel : relMaps orig m) (hnv : netViewRel orig m)
    (hfacts : ∀ k, (alookup orig k).isSome → nodeFacts netValidate orig k) :
    netOKmap netValidate m := by
  intro k v hv hp
  obtain ⟨w, hw, hwt, _, _⟩ := rel_lookup hrel hv
  have hworig : ifaceZ orig k = w := by unfold ifaceZ; rw [hw]; rfl
  have hf := hfacts k (by rw [hw]; rfl)
  have hpO : (ifaceZ orig k).type_ ≠ "physical" := by
    rw [hworig, hwt]; exact hp
  have hnet := (hf hpO).1
  rw [hworig] at hnet
  have hvweq : v.network = w.network := by
    have hnvk := hnv k
    unfold netView at hnvk
    rw [hv, hw] at hnvk
    simp only [Option.map_some'] at hnvk
    exact Option.some.inj hnvk
  intro n hn
  exact hnet n (by rw [← hvweq]; exact hn)

theorem foldlInvMem {σ β : Type _} {P : σ → Prop} {f : σ → β → σ} :
    ∀ (xs : List β), (∀ s b, b ∈ xs → P s → P (f s b)) →
      ∀ s, P s → P (xs.foldl f s) := by
  intro xs
  induction xs with
  | nil => intro _ s hs; exact hs
  | cons x xs ih =>
    intro h s hs
    exact ih (fun s b hb hsb => h s b (List.mem_cons_of_mem _ hb) hsb)
      (f s x) (h s x (List.mem_cons_self x xs) hs)

theorem stripChild_pres {Net : Type} (netValidate : Net → List String)
    (orig : List (String × Iface Net)) (st : Layout Net) (mk : String)
    (hkeyO : keyedByName orig)
    (hrel : relMaps orig st.interfaces)
    (hpres : (alookup st.interfaces mk).isSome)
    (hak : akeys st.interfaces = akeys orig)
    (hok : netOKmap netValidate st.interfaces) :
    relMaps orig (stripChild st mk).interfaces ∧
    akeys (stripChild st mk).interfaces = akeys orig ∧
    netOKmap netValidate (stripChild st mk).interfaces := by
  obtain ⟨c, hc⟩ := Option.isSome_iff_exists.mp hpres
  have hcn : c.name = mk := rel_keyed_lookup hkeyO hrel hc
  have hceq : ifaceZ st.interfaces mk = c := by unfold ifaceZ; rw [hc]; rfl
  unfold stripChild
  dsimp only
  rw [hceq, hcn]
  refine ⟨⟨fun x => ?_, fun x => ?_⟩, ?_, ?_⟩
  · unfold viewTN
    rw [alookup_aset]
    by_cases hx : mk = x
    · subst hx
      rw [if_pos rfl]
      have h0 := hrel.1 mk
      unfold viewTN at h0
      rw [hc] at h0
      rw [← h0]
      simp [hcn]
    · rw [if_neg hx]
      have h0 := hrel.1 x
      unfold viewTN at h0
      exact h0
  · unfold memView
    rw [alookup_aset]
    by_cases hx : mk = x
    · subst hx
      rw [if_pos rfl]
      have h0 := hrel.2 mk
      unfold memView at h0
      rw [hc] at h0
      rw [← h0]
      rfl
    · rw [if_neg hx]
      have h0 := hrel.2 x
      unfold memView at h0
      exact h0
  · rw [akeys_aset]
    have hnn : ¬((alookup st.interfaces mk).isNone = true) := by
      rw [hc]; simp
    rw [if_neg hnn]
    exact hak
  · intro x v hv hp
    rw [alookup_aset] at hv
    by_cases hx : mk = x
    · rw [if_pos hx] at hv
      cases hv
      intro n hn
      simp at hn
    · rw [if_neg hx] at hv
      exact hok x v hv hp

theorem stripStep_pres {Net : Type} (netValidate : Net → List String)
    (orig : List (String × Iface Net)) (st : Layout Net) (k : String)
    (hkeyO : keyedByName orig)
    (hA3 : ∀ x, (ifaceZ orig x).type_ ≠ "physical" →
      ∀ m ∈ (ifaceZ orig x).interfaces, (alookup orig m).isSome)
    (hrel : relMaps orig st.interfaces)
    (hak : akeys st.interfaces = akeys orig)
    (hok : netOKmap netValidate st.interfaces) :
    relMaps orig (stripStep st k).interfaces ∧
    akeys (stripStep st k).interfaces = akeys orig ∧
    netOKmap netValidate (stripStep st k).interfaces := by
  unfold stripStep
  dsimp only
  split_ifs with hbb
  · cases hvk : alookup st.interfaces k with
    | none =>
      exfalso
      have hz : ifaceZ st.interfaces k = ({} : Iface Net) := by
        unfold ifaceZ; rw [hvk]; rfl
      rw [hz] at hbb
      rcases hbb.1 with h | h <;>
        (rw [show ({} : Iface Net).type_ = "" from rfl] at h;
         exact absurd h (by decide))
    | some v =>
      have hveq : ifaceZ st.interfaces k = v := by
        unfold ifaceZ; rw [hvk]; rfl
      obtain ⟨w, hw, hwt, hwn, hwm⟩ := rel_lookup hrel hvk
      have hworig : ifaceZ orig k = w := by unfold ifaceZ; rw [hw]; rfl
      have hwp : (ifaceZ orig k).type_ ≠ "physical" := by
        rw [hworig, hwt, ← hveq]
        rcases hbb.1 with h | h <;> rw [h] <;> decide
      apply @foldlInvMem (Layout Net) String
        (fun s => relMaps orig s.interfaces ∧ akeys s.interfaces = akeys orig ∧
          netOKmap netValidate s.interfaces)
        stripChild (ifaceZ st.interfaces k).interfaces
      · intro s mk hmk hP
        have hmw : mk ∈ w.interfaces := by
          rw [hveq] at hmk
          have : mk ∈ ssort w.interfaces := by
            rw [hwm]; exact mem_ssort.mpr hmk
          exact mem_ssort.mp this
        have horigS : (alookup orig mk).isSome :=
          hA3 k hwp mk (hworig ▸ hmw)
        have hpres : (alookup s.interfaces mk).isSome := by
          rw [rel_isSome hP.1 mk]; exact horigS
        exact stripChild_pres netValidate orig s mk hkeyO hP.1 hpres
          hP.2.1 hP.2.2
      · exact ⟨hrel, hak, hok⟩
  · exact ⟨hrel, hak, hok⟩

theorem stripFold_pres {Net : Type} (netValidate : Net → List String)
    (orig : List (String × Iface Net)) (ms : List String) (st : Layout Net)
    (hkeyO : keyedByName orig)
    (hA3 : ∀ x, (ifaceZ orig x).type_ ≠ "physical" →
      ∀ m ∈ (ifaceZ orig x).interfaces, (alookup orig m).isSome)
    (hrel : relMaps orig st.interfaces)
    (hak : akeys st.interfaces = akeys orig)
    (hok : netOKmap netValidate st.interfaces) :
    relMaps orig (ms.foldl stripStep st).interfaces ∧
    akeys (ms.foldl stripStep st).interfaces = akeys orig ∧
    netOKmap netValidate (ms.foldl stripStep st).interfaces := by
  apply @foldlInv (Layout Net) String
    (fun s => relMaps orig s.interfaces ∧ akeys s.interfaces = akeys orig ∧
      netOKmap netValidate s.interfaces)
    stripStep
    (fun s b hs =>
      stripStep_pres netValidate orig s b hkeyO hA3 hs.1 hs.2.1 hs.2.2)
  exact ⟨hrel, hak, hok⟩

theorem oStep_sim {Net : Type} (i₁ i₂ child₁ child₂ : Iface Net)
    (st₁ st₂ : Layout Net) (es : List Emsg) (o : String)
    (hit : i₁.type_ = i₂.type_) (hin : i₁.name = i₂.name)
    (hct : child₁.type_ = child₂.type_) (hcn : child₁.name = child₂.name)
    (hsim : simState st₁ st₂) :
    simState (oStep i₁ child₁ (st₁, es) o).1 (oStep i₂ child₂ (st₂, es) o).1 ∧
    (oStep i₁ child₁ (st₁, es) o).2 = (oStep i₂ child₂ (st₂, es) o).2 := by
  obtain ⟨hc2p, hv, hm⟩ := hsim
  have hot := viewTN_typeZ (hv o)
  unfold oStep
  dsimp only
  by_cases h1 : i₁.type_ = "bridge" ∨ i₁.type_ = "bond"
  · have h1' : i₂.type_ = "bridge" ∨ i₂.type_ = "bond" := by
      rw [← hit]; exact h1
    rw [if_pos h1, if_pos h1']
    refine ⟨⟨hc2p, hv, hm⟩, ?_⟩
    rw [hct, hcn, hot.1, hot.2, hit, hin]
  · have h1' : ¬(i₂.type_ = "bridge" ∨ i₂.type_ = "bond") := by
      rw [← hit]; exact h1
    rw [if_neg h1, if_neg h1']
    by_cases h2 : i₁.type_ = "vlan"
    · have h2' : i₂.type_ = "vlan" := by rw [← hit]; exact h2
      rw [if_pos h2, if_pos h2']
      by_cases h3 : (ifaceZ st₁.interfaces o).type_ ≠ "vlan"
      · have h3' : (ifaceZ st₂.interfaces o).type_ ≠ "vlan" := by
          rw [← hot.1]; exact h3
        rw [if_pos h3, if_pos h3']
        refine ⟨⟨hc2p, hv, hm⟩, ?_⟩
        rw [hct, hcn, hot.1, hot.2, hit, hin]
      · have h3' : ¬((ifaceZ st₂.interfaces o).type_ ≠ "vlan") := by
          rw [← hot.1]; exact h3
        rw [if_neg h3, if_neg h3']
        refine ⟨⟨?_, hv, hm⟩, rfl⟩
        dsimp only
        rw [hc2p, hcn, hin]
    · have h2' : ¬(i₂.type_ = "vlan") := by rw [← hit]; exact h2
      rw [if_neg h2, if_neg h2']
      exact ⟨⟨hc2p, hv, hm⟩, rfl⟩

theorem oFold_sim {Net : Type} (i₁ i₂ child₁ child₂ : Iface Net)
    (hit : i₁.type_ = i₂.type_) (hin : i₁.name = i₂.name)
    (hct : child₁.type_ = child₂.type_) (hcn : child₁.name = child₂.name) :
    ∀ (ons : List String) (st₁ st₂ : Layout Net) (es : List Emsg),
      simState st₁ st₂ →
      simState ((ons.foldl (oStep i₁ child₁) (st₁, es)).1)
        ((ons.foldl (oStep i₂ child₂) (st₂, es)).1) ∧
      (ons.foldl (oStep i₁ child₁) (st₁, es)).2 =
        (ons.foldl (oStep i₂ child₂) (st₂, es)).2 := by
  intro ons
  induction ons with
  | nil => intro st₁ st₂ es hsim; exact ⟨hsim, rfl⟩
  | cons o ons ih =>
    intro st₁ st₂ es hsim
    rw [List.foldl_cons, List.foldl_cons]
    obtain ⟨hsim', hes'⟩ :=
      oStep_sim i₁ i₂ child₁ child₂ st₁ st₂ es o hit hin hct hcn hsim
    have h1 : oStep i₁ child₁ (st₁, es) o =
        ((oStep i₁ child₁ (st₁, es) o).1, (oStep i₁ child₁ (st₁, es) o).2) := rfl
    have h2 : oStep i₂ child₂ (st₂, es) o =
        ((oStep i₂ child₂ (st₂, es) o).1, (oStep i₂ child₂ (st₂, es) o).2) := rfl
    rw [h1, h2, ← hes']
    exact ih _ _ _ hsim'

theorem ownStep_sim {Net : Type} (i₁ i₂ child₁ child₂ : Iface Net)
    (name : String) (st₁ st₂ : Layout Net)
    (hit : i₁.type_ = i₂.type_) (hin : i₁.name = i₂.name)
    (hct : child₁.type_ = child₂.type_) (hcn : child₁.name = child₂.name)
    (hsim : simState st₁ st₂) :
    simState (ownStep i₁ child₁ name st₁).1 (ownStep i₂ child₂ name st₂).1 ∧
    (ownStep i₁ child₁ name st₁).2 = (ownStep i₂ child₂ name st₂).2 := by
  have hc2p := hsim.1
  unfold ownStep
  rw [hc2p]
  cases hl : alookup st₂.child2Parent name with
  | none =>
    dsimp only
    refine ⟨⟨?_, hsim.2.1, hsim.2.2⟩, rfl⟩
    dsimp only
    rw [hin]
  | some ons =>
    dsimp only
    exact oFold_sim i₁ i₂ child₁ child₂ hit hin hct hcn ons st₁ st₂ [] hsim

theorem memberStep_sim {Net : Type} (i₁ i₂ : Iface Net)
    (st₁ st₂ : Layout Net) (name : String)
    (hit : i₁.type_ = i₂.type_) (hin : i₁.name = i₂.name)
    (hsim : simState st₁ st₂) :
    simState (memberStep i₁ st₁ name).1 (memberStep i₂ st₂ name).1 ∧
    (memberStep i₁ st₁ name).2 = (memberStep i₂ st₂ name).2 := by
  obtain ⟨hc2p, hv, hm⟩ := hsim
  have hps := viewTN_isSome (hv name)
  unfold memberStep
  cases h1 : alookup st₁.interfaces name with
  | none =>
    have h2 : alookup st₂.interfaces name = none := by
      cases h2 : alookup st₂.interfaces name with
      | none => rfl
      | some c => rw [h1, h2] at hps; simp at hps
    rw [h2]
    dsimp only
    exact ⟨⟨hc2p, hv, hm⟩, by rw [hit, hin]⟩
  | some c₁ =>
    obtain ⟨c₂, h2⟩ : ∃ c₂, alookup st₂.interfaces name = some c₂ := by
      cases h2 : alookup st₂.interfaces name with
      | none => rw [h1, h2] at hps; simp at hps
      | some c => exact ⟨c, rfl⟩
    rw [h2]
    dsimp only
    have hcv := hv name
    unfold viewTN at hcv
    rw [h1, h2] at hcv
    simp only [Option.map_some'] at hcv
    have hcv' := Option.some.inj hcv
    have hct : c₁.type_ = c₂.type_ := congrArg Prod.fst hcv'
    have hcn : c₁.name = c₂.name := congrArg Prod.snd hcv'
    by_cases hb1 : i₁.type_ = "bond"
    · have hb1' : i₂.type_ = "bond" := by rw [← hit]; exact hb1
      rw [if_pos hb1, if_pos hb1']
      by_cases hb2 : c₁.type_ ≠ "physical"
      · have hb2' : c₂.type_ ≠ "physical" := by rw [← hct]; exact hb2
        rw [if_pos hb2, if_pos hb2']
        exact ⟨⟨hc2p, hv, hm⟩, by rw [hit, hin, hct, hcn]⟩
      · have hb2' : ¬(c₂.type_ ≠ "physical") := by rw [← hct]; exact hb2
        rw [if_neg hb2, if_neg hb2']
        exact ownStep_sim i₁ i₂ c₁ c₂ name st₁ st₂ hit hin hct hcn ⟨hc2p, hv, hm⟩
    · have hb1' : ¬(i₂.type_ = "bond") := by rw [← hit]; exact hb1
      rw [if_neg hb1, if_neg hb1']
      by_cases hb3 : i₁.type_ = "bridge"
      · have hb3' : i₂.type_ = "bridge" := by rw [← hit]; exact hb3
        rw [if_pos hb3, if_pos hb3']
        by_cases hb4 : c₁.type_ = "bridge"
        · have hb4' : c₂.type_ = "bridge" := by rw [← hct]; exact hb4
          rw [if_pos hb4, if_pos hb4']
          exact ⟨⟨hc2p, hv, hm⟩, by rw [hit, hin, hct, hcn]⟩
        · have hb4' : ¬(c₂.type_ = "bridge") := by rw [← hct]; exact hb4
          rw [if_neg hb4, if_neg hb4']
          exact ownStep_sim i₁ i₂ c₁ c₂ name st₁ st₂ hit hin hct hcn ⟨hc2p, hv, hm⟩
      · have hb3' : ¬(i₂.type_ = "bridge") := by rw [← hit]; exact hb3
        rw [if_neg hb3, if_neg hb3']
        by_cases hb5 : i₁.type_ = "vlan"
        · have hb5' : i₂.type_ = "vlan" := by rw [← hit]; exact hb5
          rw [if_pos hb5, if_pos hb5']
          by_cases hb6 : c₁.type_ = "vlan"
          · have hb6' : c₂.type_ = "vlan" := by rw [← hct]; exact hb6
            rw [if_pos hb6, if_pos hb6']
            exact ⟨⟨hc2p, hv, hm⟩, by rw [hit, hin, hct, hcn]⟩
          · have hb6' : ¬(c₂.type_ = "vlan") := by rw [← hct]; exact hb6
            rw [if_neg hb6, if_neg hb6']
            exact ownStep_sim i₁ i₂ c₁ c₂ name st₁ st₂ hit hin hct hcn ⟨hc2p, hv, hm⟩
        · have hb5' : ¬(i₂.type_ = "vlan") := by rw [← hit]; exact hb5
          rw [if_neg hb5, if_neg hb5']
          exact ⟨⟨hc2p, hv, hm⟩, rfl⟩

theorem mFold_sim {Net : Type} (i₁ i₂ : Iface Net)
    (hit : i₁.type_ = i₂.type_) (hin : i₁.name = i₂.name) :
    ∀ (names : List String) (st₁ st₂ : Layout Net) (es : List Emsg),
      simState st₁ st₂ →
      simState ((names.foldl (mStep i₁) (st₁, es)).1)
        ((names.foldl (mStep i₂) (st₂, es)).1) ∧
      (names.foldl (mStep i₁) (st₁, es)).2 =
        (names.foldl (mStep i₂) (st₂, es)).2 := by
  intro names
  induction names with
  | nil => intro st₁ st₂ es hsim; exact ⟨hsim, rfl⟩
  | cons n ns ih =>
    intro st₁ st₂ es hsim
    rw [List.foldl_cons, List.foldl_cons]
    obtain ⟨hsim', hes'⟩ := memberStep_sim i₁ i₂ st₁ st₂ n hit hin hsim
    have h1 : mStep i₁ (st₁, es) n =
        ((memberStep i₁ st₁ n).1, es ++ (memberStep i₁ st₁ n).2) := rfl
    have h2 : mStep i₂ (st₂, es) n =
        ((memberStep i₂ st₂ n).1, es ++ (memberStep i₂ st₂ n).2) := rfl
    rw [h1, h2, ← hes']
    exact ih _ _ _ hsim'

theorem ifaceValidate_eqPhys {Net : Type} (netValidate : Net → List String)
    (l : Layout Net) (k : String)
    (hp : (ifaceZ l.interfaces k).type_ = "physical") :
    ifaceValidate netValidate l k =
      (l, if (ifaceZ l.interfaces k).interfaces.length > 0 then
        [Emsg.physHasSubs (ifaceZ l.interfaces k).type_
          (ifaceZ l.interfaces k).name (ifaceZ l.interfaces k).interfaces]
      else []) := by
  unfold ifaceValidate
  dsimp only
  rw [if_pos hp]

theorem ifaceValidate_eq {Net : Type} (netValidate : Net → List String)
    (l : Layout Net) (k : String)
    (hp : ¬((ifaceZ l.interfaces k).type_ = "physical")) :
    ifaceValidate netValidate l k =
      (ssort (ifaceZ l.interfaces k).interfaces).foldl
        (mStep (ifaceZ l.interfaces k))
        ({ l with interfaces := (aset l.interfaces k
            { ifaceZ l.interfaces k with
              interfaces := (ssort (ifaceZ l.interfaces k).interfaces) }) },
         netEof netValidate l.interfaces k) := by
  unfold ifaceValidate netEof
  dsimp only
  rw [if_neg hp]

theorem netEof_of_netOKmap {Net : Type} (netValidate : Net → List String)
    (m : List (String × Iface Net)) (k : String)
    (hok : netOKmap netValidate m)
    (hp : (ifaceZ m k).type_ ≠ "physical") :
    netEof netValidate m k = [] := by
  unfold netEof
  cases hc : alookup m k with
  | none =>
    have hz : (ifaceZ m k).network = none := by unfold ifaceZ; rw [hc]; rfl
    rw [hz]
  | some v =>
    have hveq : ifaceZ m k = v := by unfold ifaceZ; rw [hc]; rfl
    rw [hveq]
    cases hn : v.network with
    | none => rfl
    | some n =>
      have hnv := hok k v hc (by rw [← hveq]; exact hp) n hn
      show List.map Emsg.netErr (netValidate n) = []
      rw [hnv]
      rfl

theorem ifaceValidate_sim {Net : Type} (netValidate : Net → List String)
    (st₁ st₂ : Layout Net) (k : String)
    (hsim : simState st₁ st₂)
    (hfree₁ : (ifaceValidate netValidate st₁ k).2 = [])
    (hok₂ : netOKmap netValidate st₂.interfaces) :
    (ifaceValidate netValidate st₂ k).2 = [] ∧
    simState (ifaceValidate netValidate st₁ k).1
      (ifaceValidate netValidate st₂ k).1 := by
  obtain ⟨hc2p, hv, hm⟩ := hsim
  have htz := viewTN_typeZ (hv k)
  have hmz := memView_sortZ (hm k)
  by_cases hp : (ifaceZ st₁.interfaces k).type_ = "physical"
  · have hp₂ : (ifaceZ st₂.interfaces k).type_ = "physical" := by
      rw [← htz.1]; exact hp
    rw [ifaceValidate_eqPhys netValidate st₁ k hp] at hfree₁
    rw [ifaceValidate_eqPhys netValidate st₁ k hp,
      ifaceValidate_eqPhys netValidate st₂ k hp₂]
    dsimp only at hfree₁ ⊢
    split_ifs at hfree₁ with hlen
    have hm₁ : (ifaceZ st₁.interfaces k).interfaces = [] := by
      cases hx : (ifaceZ st₁.interfaces k).interfaces with
      | nil => rfl
      | cons a l => rw [hx] at hlen; simp at hlen
    have hm₂ : (ifaceZ st₂.interfaces k).interfaces = [] := by
      have h0 := hmz
      rw [hm₁] at h0
      have hperm := ssort_perm (ifaceZ st₂.interfaces k).interfaces
      rw [← h0] at hperm
      have hnil : List.Perm ([] : List String)
          (ifaceZ st₂.interfaces k).interfaces := hperm
      exact hnil.nil_eq.symm
    have hlen₂ : ¬((ifaceZ st₂.interfaces k).interfaces.length > 0) := by
      rw [hm₂]; simp
    rw [if_neg hlen₂]
    exact ⟨rfl, ⟨hc2p, hv, hm⟩⟩
  · have hp₂ : ¬((ifaceZ st₂.interfaces k).type_ = "physical") := by
      rw [← htz.1]; exact hp
    rw [ifaceValidate_eq netValidate st₁ k hp] at hfree₁
    rw [ifaceValidate_eq netValidate st₁ k hp,
      ifaceValidate_eq netValidate st₂ k hp₂]
    have hsplit := mFoldFree_split _ _ _ hfree₁
    have hE₁ : netEof netValidate st₁.interfaces k = [] := hsplit.1
    have hE₂ : netEof netValidate st₂.interfaces k = [] :=
      netEof_of_netOKmap netValidate st₂.interfaces k hok₂ hp₂
    rw [hE₁] at hfree₁ ⊢
    rw [hE₂, ← hmz]
    have hsim' : simState
        ({ st₁ with interfaces := (aset st₁.interfaces k
            { ifaceZ st₁.interfaces k with
              interfaces := (ssort (ifaceZ st₁.interfaces k).interfaces) }) })
        ({ st₂ with interfaces := (aset st₂.interfaces k
            { ifaceZ st₂.interfaces k with
              interfaces := (ssort (ifaceZ st₁.interfaces k).interfaces) }) }) := by
      refine ⟨hc2p, fun x => ?_, fun x => ?_⟩
      · dsimp only
        unfold viewTN
        rw [alookup_aset, alookup_aset]
        by_cases hx : k = x
        · rw [if_pos hx, if_pos hx]
          simp [htz.1, htz.2]
        · rw [if_neg hx, if_neg hx]
          have h0 := hv x
          unfold viewTN at h0
          exact h0
      · dsimp only
        unfold memView
        rw [alookup_aset, alookup_aset]
        by_cases hx : k = x
        · rw [if_pos hx, if_pos hx]
          simp
        · rw [if_neg hx, if_neg hx]
          have h0 := hm x
          unfold memView at h0
          exact h0
    obtain ⟨hsimF, hesF⟩ := mFold_sim (ifaceZ st₁.interfaces k)
      (ifaceZ st₂.interfaces k) htz.1 htz.2
      (ssort (ifaceZ st₁.interfaces k).interfaces) _ _ [] hsim'
    exact ⟨by rw [← hesF]; exact hfree₁, hsimF⟩

theorem p1Fold_sim {Net : Type} (netValidate : Net → List String)
    (orig : List (String × Iface Net)) :
    ∀ (ks : List String) (acc₁ acc₂ : Layout Net × List Emsg),
      (∀ x ∈ ks, (alookup orig x).isSome) →
      (ks.foldl (p1Step netValidate) acc₁).2 = acc₁.2 →
      simState acc₁.1 acc₂.1 →
      akeys acc₂.1.interfaces = akeys orig →
      netOKmap netValidate acc₂.1.interfaces →
      (ks.foldl (p1Step netValidate) acc₂).2 = acc₂.2 ∧
      simState (ks.foldl (p1Step netValidate) acc₁).1
        (ks.foldl (p1Step netValidate) acc₂).1 ∧
      akeys (ks.foldl (p1Step netValidate) acc₂).1.interfaces = akeys orig ∧
      netOKmap netValidate (ks.foldl (p1Step netValidate) acc₂).1.interfaces := by
  intro ks
  induction ks with
  | nil => intro acc₁ acc₂ _ _ hsim hak hok; exact ⟨rfl, hsim, hak, hok⟩
  | cons k ks ih =>
    intro acc₁ acc₂ hks hfree hsim hak hok
    rw [List.foldl_cons] at hfree ⊢
    obtain ⟨δ₂, h₂⟩ := p1Fold_es netValidate ks (p1Step netValidate acc₁ k)
    rw [h₂, p1Step_es] at hfree
    have h3 : acc₁.2 ++ ((ifaceValidate netValidate acc₁.1 k).2 ++ δ₂) =
        acc₁.2 := by
      rw [← List.append_assoc]; exact hfree
    have h4 := List.append_eq_nil.mp (append_self_nil h3)
    have hk2 : (alookup acc₂.1.interfaces k).isSome := by
      apply alookup_isSome_of_mem_akeys
      rw [hak]
      exact mem_akeys_of_isSome _ _ (hks k (List.mem_cons_self k ks))
    obtain ⟨hδ₂, hsim'⟩ :=
      ifaceValidate_sim netValidate acc₁.1 acc₂.1 k hsim h4.1 hok
    have hak' : akeys (p1Step netValidate acc₂ k).1.interfaces = akeys orig :=
      (ifaceValidate_akeys netValidate acc₂.1 k hk2).trans hak
    have hok' : netOKmap netValidate (p1Step netValidate acc₂ k).1.interfaces :=
      ifaceValidate_netOKmap netValidate acc₂.1 k hok
    have htail : (ks.foldl (p1Step netValidate) (p1Step netValidate acc₁ k)).2 =
        (p1Step netValidate acc₁ k).2 := by
      rw [h₂, h4.2, List.append_nil]
    have hih := ih (p1Step netValidate acc₁ k) (p1Step netValidate acc₂ k)
      (fun x hx => hks x (List.mem_cons_of_mem _ hx)) htail hsim' hak' hok'
    refine ⟨?_, hih.2.1, hih.2.2.1, hih.2.2.2⟩
    rw [hih.1, p1Step_es, hδ₂, List.append_nil]

theorem layoutValidate_free_eq {Net : Type} (netValidate : Net → List String)
    (l : Layout Net) (hfree : (phase1 netValidate l).2 = []) :
    layoutValidate netValidate l =
      postPhase ((ssort (akeys l.interfaces)).foldl stripStep
        (phase1 netValidate l).1) := by
  unfold layoutValidate postPhase
  dsimp only
  rw [if_neg (not_not_intro hfree)]

theorem relMaps_of_sim {Net : Type} {orig : List (String × Iface Net)}
    {st₁ st₂ : Layout Net} (hrel : relMaps orig st₁.interfaces)
    (hsim : simState st₁ st₂) : relMaps orig st₂.interfaces :=
  ⟨fun k => (hsim.2.1 k).symm.trans (hrel.1 k),
   fun k => (hsim.2.2 k).symm.trans (hrel.2 k)⟩

theorem stripFold_c2p_roots {Net : Type} (ms : List String) (st : Layout Net) :
    (ms.foldl stripStep st).child2Parent = st.child2Parent ∧
    (ms.foldl stripStep st).roots = st.roots := by
  apply @foldlInv (Layout Net) String
    (fun s => s.child2Parent = st.child2Parent ∧ s.roots = st.roots)
    stripStep
    (fun s b hs => ⟨(stripStep_c2p_roots s b).1.trans hs.1,
      (stripStep_c2p_roots s b).2.trans hs.2⟩)
  exact ⟨rfl, rfl⟩

theorem postPhase_c2p {Net : Type} (l₁ : Layout Net) :
    (postPhase l₁).1.child2Parent = l₁.child2Parent := rfl

theorem postPhase_intf {Net : Type} (l₁ : Layout Net) :
    (postPhase l₁).1.interfaces = l₁.interfaces := rfl

theorem postPhase_roots {Net : Type} (l₁ : Layout Net) :
    (postPhase l₁).1.roots = ssort (l₁.roots ++ parentless l₁) := by
  unfold postPhase parentless
  dsimp only
  rw [rcFold_roots]

theorem postPhase_es_eq {Net : Type} (lA lB : Layout Net)
    (hc : lA.child2Parent = lB.child2Parent)
    (hk : akeys lA.interfaces = akeys lB.interfaces) :
    (postPhase lA).2 = (postPhase lB).2 := by
  unfold postPhase
  dsimp only
  rw [hc, hk]
  exact congrArg Prod.snd (rcFold_snd lB.child2Parent
    (lB.child2Parent.length + 2) (akeys lB.interfaces) lA.roots lB.roots [] [])

theorem parentless_congr {Net : Type} (la lb : Layout Net)
    (hk : akeys la.interfaces = akeys lb.interfaces)
    (hc : la.child2Parent = lb.child2Parent) :
    parentless la = parentless lb := by
  unfold parentless
  rw [hk, hc]

/-- **C1** (amended): running `Layout.Validate` a second time on the
result of an error-free run over a name-keyed graph reports no errors
and reproduces the same `childToParents` map, but the roots are *not*
reproduced: the recomputed parentless names are appended to the
already-populated roots list and the result is their sorted
concatenation (so each root is duplicated when the first run started
from an empty roots list). -/
theorem claim1_amended {Net : Type} (netValidate : Net → List String)
    (l : Layout Net) (hkey : keyedByName l.interfaces)
    (hok : (layoutValidate netValidate l).2 = []) :
    (layoutValidate netValidate (layoutValidate netValidate l).1).2 = [] ∧
    (layoutValidate netValidate (layoutValidate netValidate l).1).1.child2Parent =
      (layoutValidate netValidate l).1.child2Parent ∧
    (layoutValidate netValidate (layoutValidate netValidate l).1).1.roots =
      ssort ((layoutValidate netValidate l).1.roots ++ parentless (layoutValidate netValidate l).1) := by
  have hfree₁ : (phase1 netValidate l).2 = [] := phase1_free netValidate l hok
  have hkmem : ∀ x ∈ ssort (akeys l.interfaces),
      (alookup l.interfaces x).isSome :=
    fun x hx => alookup_isSome_of_mem_akeys _ x (mem_ssort.mp hx)
  have hinit : c3Inv l.interfaces
      ({ l with child2Parent := ([] : List (String × List String)) }) := by
    refine ⟨relMaps_refl _, ?_, ?_, ?_⟩
    · intro p hp; simp at hp
    · intro c ps h; simp [alookup] at h
    · intro c ps h; simp [alookup] at h
  obtain ⟨⟨hinvP, hnvP, hakP⟩, hkfacts⟩ :=
    p1Fold_facts netValidate l.interfaces hkey (ssort (akeys l.interfaces))
      ({ l with child2Parent := ([] : List (String × List String)) }, ([] : List Emsg)) hkmem hfree₁ hinit (fun _ => rfl) rfl
  have hrelP : relMaps l.interfaces ((ssort (akeys l.interfaces)).foldl (p1Step netValidate) ({ l with child2Parent := ([] : List (String × List String)) }, ([] : List Emsg))).1.interfaces := hinvP.1
  have hA3 : ∀ x, (ifaceZ l.interfaces x).type_ ≠ "physical" →
      ∀ m ∈ (ifaceZ l.interfaces x).interfaces,
        (alookup l.interfaces m).isSome := by
    intro x hxp m hm
    by_cases hx : (alookup l.interfaces x).isSome
    · exact ((hkfacts x (mem_ssort.mpr (mem_akeys_of_isSome _ x hx))) hxp).2 m hm
    · exfalso
      have hnone : alookup l.interfaces x = none := by
        cases hc : alookup l.interfaces x with
        | none => rfl
        | some v => rw [hc] at hx; simp at hx
      unfold ifaceZ at hm
      rw [hnone] at hm
      simp at hm
  have hokP : netOKmap netValidate ((ssort (akeys l.interfaces)).foldl (p1Step netValidate) ({ l with child2Parent := ([] : List (String × List String)) }, ([] : List Emsg))).1.interfaces :=
    netOKmap_of_facts netValidate l.interfaces _ hrelP hnvP
      (fun k hk => hkfacts k (mem_ssort.mpr (mem_akeys_of_isSome _ k hk)))
  obtain ⟨hrelS₁, hakS₁, hokS₁⟩ :=
    stripFold_pres netValidate l.interfaces (ssort (akeys l.interfaces))
      (phase1 netValidate l).1 hkey hA3 hrelP hakP hokP
  have hsr₁ := stripFold_c2p_roots (ssort (akeys l.interfaces))
    (phase1 netValidate l).1
  have hL1 := layoutValidate_free_eq netValidate l hfree₁
  have hr1i : (layoutValidate netValidate l).1.interfaces = ((ssort (akeys l.interfaces)).foldl stripStep (phase1 netValidate l).1).interfaces := by
    rw [hL1]; exact postPhase_intf _
  have hr1c : (layoutValidate netValidate l).1.child2Parent = ((ssort (akeys l.interfaces)).foldl stripStep (phase1 netValidate l).1).child2Parent := by
    rw [hL1]; exact postPhase_c2p _
  have hakr1 : akeys (layoutValidate netValidate l).1.interfaces = akeys l.interfaces := by
    rw [hr1i]; exact hakS₁
  have hkseq : ssort (akeys (layoutValidate netValidate l).1.interfaces) = ssort (akeys l.interfaces) := by
    rw [hakr1]
  have hP2 : phase1 netValidate (layoutValidate netValidate l).1 =
      ((ssort (akeys l.interfaces)).foldl (p1Step netValidate) ({ (layoutValidate netValidate l).1 with child2Parent := ([] : List (String × List String)) }, ([] : List Emsg))) := by
    unfold phase1
    rw [hkseq]
  have hsim0 : simState
      ({ l with child2Parent := ([] : List (String × List String)) })
      ({ (layoutValidate netValidate l).1 with child2Parent := ([] : List (String × List String)) }) := by
    refine ⟨rfl, fun k => ?_, fun k => ?_⟩
    · show viewTN l.interfaces k = viewTN (layoutValidate netValidate l).1.interfaces k
      rw [hr1i]
      exact (hrelS₁.1 k).symm
    · show memView l.interfaces k = memView (layoutValidate netValidate l).1.interfaces k
      rw [hr1i]
      exact (hrelS₁.2 k).symm
  have hak0 : akeys ({ (layoutValidate netValidate l).1 with
      child2Parent := ([] : List (String × List String)) }).interfaces =
      akeys l.interfaces := by
    show akeys (layoutValidate netValidate l).1.interfaces = akeys l.interfaces
    exact hakr1
  have hok0 : netOKmap netValidate ({ (layoutValidate netValidate l).1 with
      child2Parent := ([] : List (String × List String)) }).interfaces := by
    show netOKmap netValidate (layoutValidate netValidate l).1.interfaces
    rw [hr1i]
    exact hokS₁
  obtain ⟨hfree₂fold, hsimP, hakP₂, hokP₂⟩ :=
    p1Fold_sim netValidate l.interfaces (ssort (akeys l.interfaces))
      ({ l with child2Parent := ([] : List (String × List String)) }, ([] : List Emsg)) ({ (layoutValidate netValidate l).1 with child2Parent := ([] : List (String × List String)) }, ([] : List Emsg)) hkmem hfree₁ hsim0 hak0 hok0
  have hfree₂ : (phase1 netValidate (layoutValidate netValidate l).1).2 = [] := by
    rw [hP2]; exact hfree₂fold
  have hL2 := layoutValidate_free_eq netValidate (layoutValidate netValidate l).1 hfree₂
  have hS2eq : (ssort (akeys (layoutValidate netValidate l).1.interfaces)).foldl stripStep
      (phase1 netValidate (layoutValidate netValidate l).1).1 = ((ssort (akeys l.interfaces)).foldl stripStep ((ssort (akeys l.interfaces)).foldl (p1Step netValidate) ({ (layoutValidate netValidate l).1 with child2Parent := ([] : List (String × List String)) }, ([] : List Emsg))).1) := by
    rw [hkseq, hP2]
  rw [hS2eq] at hL2
  have hrelP₂ : relMaps l.interfaces ((ssort (akeys l.interfaces)).foldl (p1Step netValidate) ({ (layoutValidate netValidate l).1 with child2Parent := ([] : List (String × List String)) }, ([] : List Emsg))).1.interfaces :=
    relMaps_of_sim hrelP hsimP
  obtain ⟨hrelS₂, hakS₂, hokS₂⟩ :=
    stripFold_pres netValidate l.interfaces (ssort (akeys l.interfaces))
      ((ssort (akeys l.interfaces)).foldl (p1Step netValidate) ({ (layoutValidate netValidate l).1 with child2Parent := ([] : List (String × List String)) }, ([] : List Emsg))).1 hkey hA3 hrelP₂ hakP₂ hokP₂
  have hsr₂ := stripFold_c2p_roots (ssort (akeys l.interfaces)) ((ssort (akeys l.interfaces)).foldl (p1Step netValidate) ({ (layoutValidate netValidate l).1 with child2Parent := ([] : List (String × List String)) }, ([] : List Emsg))).1
  have hrootsP₂ : ((ssort (akeys l.interfaces)).foldl (p1Step netValidate) ({ (layoutValidate netValidate l).1 with child2Parent := ([] : List (String × List String)) }, ([] : List Emsg))).1.roots = (layoutValidate netValidate l).1.roots := by
    have h := phase1_roots netValidate (layoutValidate netValidate l).1
    rw [hP2] at h
    exact h
  have hcS : ((ssort (akeys l.interfaces)).foldl stripStep ((ssort (akeys l.interfaces)).foldl (p1Step netValidate) ({ (layoutValidate netValidate l).1 with child2Parent := ([] : List (String × List String)) }, ([] : List Emsg))).1).child2Parent = ((ssort (akeys l.interfaces)).foldl stripStep (phase1 netValidate l).1).child2Parent :=
    hsr₂.1.trans (hsimP.1.symm.trans hsr₁.1.symm)
  have hakSS : akeys ((ssort (akeys l.interfaces)).foldl stripStep ((ssort (akeys l.interfaces)).foldl (p1Step netValidate) ({ (layoutValidate netValidate l).1 with child2Parent := ([] : List (String × List String)) }, ([] : List Emsg))).1).interfaces = akeys ((ssort (akeys l.interfaces)).foldl stripStep (phase1 netValidate l).1).interfaces :=
    hakS₂.trans hakS₁.symm
  have hS₂roots : ((ssort (akeys l.interfaces)).foldl stripStep ((ssort (akeys l.interfaces)).foldl (p1Step netValidate) ({ (layoutValidate netValidate l).1 with child2Parent := ([] : List (String × List String)) }, ([] : List Emsg))).1).roots = (layoutValidate netValidate l).1.roots := hsr₂.2.trans hrootsP₂
  have hplS : parentless ((ssort (akeys l.interfaces)).foldl stripStep ((ssort (akeys l.interfaces)).foldl (p1Step netValidate) ({ (layoutValidate netValidate l).1 with child2Parent := ([] : List (String × List String)) }, ([] : List Emsg))).1) = parentless (layoutValidate netValidate l).1 :=
    parentless_congr _ _ (hakS₂.trans hakr1.symm) (hcS.trans hr1c.symm)
  refine ⟨?_, ?_, ?_⟩
  · calc (layoutValidate netValidate (layoutValidate netValidate l).1).2
        = (postPhase ((ssort (akeys l.interfaces)).foldl stripStep ((ssort (akeys l.interfaces)).foldl (p1Step netValidate) ({ (layoutValidate netValidate l).1 with child2Parent := ([] : List (String × List String)) }, ([] : List Emsg))).1)).2 := congrArg Prod.snd hL2
      _ = (postPhase ((ssort (akeys l.interfaces)).foldl stripStep (phase1 netValidate l).1)).2 := postPhase_es_eq _ _ hcS hakSS
      _ = (layoutValidate netValidate l).2 := (congrArg Prod.snd hL1).symm
      _ = [] := hok
  · calc (layoutValidate netValidate (layoutValidate netValidate l).1).1.child2Parent
        = (postPhase ((ssort (akeys l.interfaces)).foldl stripStep ((ssort (akeys l.interfaces)).foldl (p1Step netValidate) ({ (layoutValidate netValidate l).1 with child2Parent := ([] : List (String × List String)) }, ([] : List Emsg))).1)).1.child2Parent :=
          congrArg (fun p => p.1.child2Parent) hL2
      _ = ((ssort (akeys l.interfaces)).foldl stripStep ((ssort (akeys l.interfaces)).foldl (p1Step netValidate) ({ (layoutValidate netValidate l).1 with child2Parent := ([] : List (String × List String)) }, ([] : List Emsg))).1).child2Parent := postPhase_c2p _
      _ = ((ssort (akeys l.interfaces)).foldl stripStep (phase1 netValidate l).1).child2Parent := hcS
      _ = (layoutValidate netValidate l).1.child2Parent := hr1c.symm
  · calc (layoutValidate netValidate (layoutValidate netValidate l).1).1.roots
        = (postPhase ((ssort (akeys l.interfaces)).foldl stripStep ((ssort (akeys l.interfaces)).foldl (p1Step netValidate) ({ (layoutValidate netValidate l).1 with child2Parent := ([] : List (String × List String)) }, ([] : List Emsg))).1)).1.roots := congrArg (fun p => p.1.roots) hL2
      _ = ssort (((ssort (akeys l.interfaces)).foldl stripStep ((ssort (akeys l.interfaces)).foldl (p1Step netValidate) ({ (layoutValidate netValidate l).1 with child2Parent := ([] : List (String × List String)) }, ([] : List Emsg))).1).roots ++ parentless ((ssort (akeys l.interfaces)).foldl stripStep ((ssort (akeys l.interfaces)).foldl (p1Step netValidate) ({ (layoutValidate netValidate l).1 with child2Parent := ([] : List (String × List String)) }, ([] : List Emsg))).1)) := postPhase_roots _
      _ = ssort ((layoutValidate netValidate l).1.roots ++ parentless (layoutValidate netValidate l).1) := by
          rw [hS₂roots, hplS]

/-- Witness for `claim1_amended`: the single-node graph `c1Layout`
validates cleanly; the second run reports no errors and keeps the
`childToParents` map, and its roots are the sorted concatenation of the
first run's roots with the recomputed parentless names. -/
theorem claim1_amended_witness :
    keyedByName c1Layout.interfaces ∧
    (layoutValidate unitNet c1Layout).2 = [] ∧
    ((layoutValidate unitNet (layoutValidate unitNet c1Layout).1).2 = [] ∧
     (layoutValidate unitNet (layoutValidate unitNet c1Layout).1).1.child2Parent
       = (layoutValidate unitNet c1Layout).1.child2Parent ∧
     (layoutValidate unitNet (layoutValidate unitNet c1Layout).1).1.roots =
       ssort ((layoutValidate unitNet c1Layout).1.roots ++
         parentless (layoutValidate unitNet c1Layout).1)) :=
  ⟨by decide, by decide,
   claim1_amended unitNet c1Layout (by decide) (by decide)⟩
